import Mathlib

/-!
# Verification of the batiserv order-tracking import/merge engine

A shallow embedding of the data model and the operations of the
repository (CSV parsing, French date parsing, the `importData`
merge engine, and the user-creation operations `addUser` / `signup`),
together with theorems settling the specification claims.

JavaScript strings become `String`, in-place mutation of the module-level
arrays becomes explicit state passing over a `DB` record, `randomUUID`
becomes a threaded counter of numeric ids, `new Date()` becomes an explicit
`now` parameter, and the generic `new Date(string)` fallback parser becomes
an explicit `jsParse` function parameter.  `localStorage` writes become an
event log inside `DB`.
-/

namespace Batiserv

/-- Trim of a character list: drop leading and trailing whitespace,
modelling JavaScript `String.prototype.trim` (ASCII whitespace). -/
def jsTrimList (cs : List Char) : List Char :=
  (((cs.dropWhile Char.isWhitespace).reverse).dropWhile Char.isWhitespace).reverse

/-- JavaScript `s.trim()`. -/
def jsTrim (s : String) : String :=
  String.mk (jsTrimList s.data)

/-- JavaScript `s.toLowerCase()` (ASCII case mapping). -/
def jsToLower (s : String) : String :=
  String.mk (s.data.map Char.toLower)

/-- JavaScript `s.split(sep)` for a single-character separator:
splits on every occurrence, keeping empty pieces. -/
def splitOnChar (sep : Char) : List Char → List String
  | [] => [""]
  | c :: rest =>
    let r := splitOnChar sep rest
    if c = sep then "" :: r
    else
      match r with
      | [] => [String.mk [c]]
      | f :: fs => String.mk (c :: f.data) :: fs

/-- JavaScript `s.replace(/\r/g, '')`: remove every carriage return. -/
def stripCR (s : String) : String :=
  String.mk (s.data.filter (fun c => !(c = '\r')))

/-- JavaScript `h.replace(/^﻿/, '')`: drop one leading byte-order mark. -/
def dropBOM (s : String) : String :=
  match s.data with
  | '﻿' :: rest => String.mk rest
  | _ => s

/-- JavaScript `s.replace(',', '')` with a string pattern:
remove only the first occurrence of the character. -/
def removeFirstChar (c : Char) : List Char → List Char
  | [] => []
  | x :: xs => if x = c then xs else x :: removeFirstChar c xs

/-- Decimal digits to a number, modelling `parseInt(s, 10)` on an
all-digit string. -/
def digitsToNat (cs : List Char) : Nat :=
  cs.foldl (fun a c => a * 10 + (c.toNat - '0'.toNat)) 0

/-! ## The CSV field splitter (`parseCSV`'s inner character loop) -/

/-- The character loop of `parseCSV` over one data line: `inQ` is the
`inQuotes` flag, `cur` the current field under construction, `acc` the
fields already emitted.  A double quote inside a quoted field followed by
another double quote emits a literal quote; otherwise a quote toggles the
flag.  An unquoted comma ends the field. -/
def parseFields : List Char → Bool → List Char → List String → List String
  | [], _, cur, acc => acc ++ [String.mk cur]
  | '"' :: '"' :: rest, true, cur, acc => parseFields rest true (cur ++ ['"']) acc
  | '"' :: rest, true, cur, acc => parseFields rest false cur acc
  | '"' :: rest, false, cur, acc => parseFields rest true cur acc
  | c :: rest, inQ, cur, acc =>
    if c = ',' ∧ inQ = false then
      parseFields rest inQ [] (acc ++ [String.mk cur])
    else
      parseFields rest inQ (cur ++ [c]) acc

/-- Split one CSV data line into raw field values. -/
def splitCSVLine (line : String) : List String :=
  parseFields line.data false [] []

/-- Build the `rowObject` of `parseCSV`: for each header at index `i`,
bind it to the trimmed `i`-th field, or `""` when the row is short
(`row[index] ? row[index].trim() : ''`). -/
def mkRowObject (headers fields : List String) : List (String × String) :=
  headers.enum.map (fun p => (p.2, jsTrim (fields.getD p.1 "")))

/-- JavaScript object property read over the row object: the last
assignment for a key wins; a missing key reads as the empty string
(`undefined` is indistinguishable from `''` in every use `importData`
makes of a field). -/
def rowGet (row : List (String × String)) (k : String) : String :=
  (row.foldl (fun acc p => if p.1 = k then some p.2 else acc) none).getD ""

/-- The CSV parser: normalize away carriage returns, split into lines,
take the first line as headers (trimmed, leading BOM dropped), skip blank
data lines, and parse each remaining line into a row object. -/
def parseCSV (csvText : String) : List (List (String × String)) :=
  let lines := splitOnChar '\n' (stripCR csvText).data
  match lines with
  | [] => []
  | headerLine :: dataLines =>
    let headers := (splitOnChar ',' headerLine.data).map (fun h => dropBOM (jsTrim h))
    (dataLines.filter (fun l => !(jsTrim l = ""))).map
      (fun l => mkRowObject headers (splitCSVLine l))

/-! ## JavaScript `Date` model

`new Date(year, month, day, h, m, s)` normalizes out-of-range components
(ECMAScript `MakeDay`/`MakeTime`); the source validates a parsed date by
checking that normalization did not move the calendar day.  We model an
instant by its local calendar components, computed with the standard
civil-from-days conversion on the proleptic Gregorian calendar. -/

/-- Days since 1970-01-01 of the civil date `(y, m, d)` (`m` is 1-based),
valid for all integer inputs via floor division. -/
def daysFromCivil (y m d : Int) : Int :=
  let y2 := y + Int.fdiv (m - 3) 12
  let m2 := Int.emod (m - 3) 12
  y2 * 365 + Int.fdiv y2 4 - Int.fdiv y2 100 + Int.fdiv y2 400
    + Int.fdiv (153 * m2 + 2) 5 + d - 719469

/-- Inverse of `daysFromCivil`: the civil date of a day count. -/
def civilFromDays (z0 : Int) : Int × Int × Int :=
  let z := z0 + 719468
  let era := Int.fdiv z 146097
  let doe := z - era * 146097
  let yoe := Int.fdiv (doe - Int.fdiv doe 1460 + Int.fdiv doe 36524 - Int.fdiv doe 146096) 365
  let y := yoe + era * 400
  let doy := doe - (365 * yoe + Int.fdiv yoe 4 - Int.fdiv yoe 100)
  let mp := Int.fdiv (5 * doy + 2) 153
  let d := doy - Int.fdiv (153 * mp + 2) 5 + 1
  let m := mp + (if mp < 10 then 3 else -9)
  (y + (if m ≤ 2 then 1 else 0), m, d)

/-- A JavaScript `Date`, observed through its local calendar components
(`getFullYear`, `getMonth` + 1, `getDate`, `getHours`, `getMinutes`,
`getSeconds`). -/
structure JSDate where
  year : Int
  month : Int
  day : Int
  hour : Int
  minute : Int
  second : Int
deriving DecidableEq, Repr

/-- `new Date(year, month0, day, h, mi, s)` with component normalization:
overflowing months shift the year, overflowing days and times shift the
date. -/
def mkJSDate (year month0 day h mi s : Int) : JSDate :=
  let tm := year * 12 + month0
  let y1 := Int.fdiv tm 12
  let m1 := Int.emod tm 12
  let secs := h * 3600 + mi * 60 + s
  let epochDays := daysFromCivil y1 (m1 + 1) 1 + (day - 1) + Int.fdiv secs 86400
  let rem := Int.emod secs 86400
  let c := civilFromDays epochDays
  ⟨c.1, c.2.1, c.2.2, Int.fdiv rem 3600, Int.fdiv (Int.emod rem 3600) 60, Int.emod rem 60⟩

/-- Match of the strict pattern
`^(\d{2})\/(\d{2})\/(\d{4})(?: (\d{2}):(\d{2}):(\d{2}))?$`, returning
`(day, month, year, hours, minutes, seconds)`. -/
def matchFrenchDate (s : String) : Option (Nat × Nat × Nat × Nat × Nat × Nat) :=
  match s.data with
  | [d1, d2, '/', m1, m2, '/', y1, y2, y3, y4] =>
    if d1.isDigit && d2.isDigit && m1.isDigit && m2.isDigit
        && y1.isDigit && y2.isDigit && y3.isDigit && y4.isDigit then
      some (digitsToNat [d1, d2], digitsToNat [m1, m2], digitsToNat [y1, y2, y3, y4], 0, 0, 0)
    else none
  | [d1, d2, '/', m1, m2, '/', y1, y2, y3, y4, ' ', h1, h2, ':', n1, n2, ':', s1, s2] =>
    if d1.isDigit && d2.isDigit && m1.isDigit && m2.isDigit
        && y1.isDigit && y2.isDigit && y3.isDigit && y4.isDigit
        && h1.isDigit && h2.isDigit && n1.isDigit && n2.isDigit
        && s1.isDigit && s2.isDigit then
      some (digitsToNat [d1, d2], digitsToNat [m1, m2], digitsToNat [y1, y2, y3, y4],
            digitsToNat [h1, h2], digitsToNat [n1, n2], digitsToNat [s1, s2])
    else none
  | _ => none

/-- `parseFrenchDateString`: empty input fails; one comma is removed
(`toLocaleString('fr-FR')` tolerance); if the strict pattern fails, the
generic `new Date(dateString)` fallback (`jsParse`) decides; otherwise the
date is reconstructed from the components and rejected when the calendar
normalizes it to a different day. -/
def parseFrenchDateString (jsParse : String → Option JSDate) (dateString : String) :
    Option JSDate :=
  if dateString = "" then none
  else
    let cleaned := String.mk (removeFirstChar ',' dateString.data)
    match matchFrenchDate cleaned with
    | none => jsParse dateString
    | some (day, month, year, hours, minutes, seconds) =>
      let date := mkJSDate (Int.ofNat year) (Int.ofNat month - 1) (Int.ofNat day)
        (Int.ofNat hours) (Int.ofNat minutes) (Int.ofNat seconds)
      if date.year = Int.ofNat year ∧ date.month - 1 = Int.ofNat month - 1
          ∧ date.day = Int.ofNat day then
        some date
      else none

/-! ## Data model -/

/-- `UserRole` of the source: one of the three valid roles. -/
inductive Role
  | Admin
  | Editor
  | Viewer
deriving DecidableEq, Repr

/-- `UserWithPassword`: a user together with the optional credential. -/
structure UserRec where
  id : Nat
  name : String
  email : String
  role : Role
  password : Option String
deriving DecidableEq, Repr

/-- The two part types an `Order` can carry. -/
inductive PartType
  | frames
  | doors
deriving DecidableEq, Repr

/-- `OrderPart`: one part of an order. -/
structure OrderPartRec where
  number : String
  isSent : Bool
  creationDate : JSDate
  userId : Nat
  userName : String
  notes : String
deriving DecidableEq, Repr

/-- `Order`: an optional frames part and an optional doors part. -/
structure OrderRec where
  id : Nat
  frames : Option OrderPartRec
  doors : Option OrderPartRec
deriving DecidableEq, Repr

/-- Dynamic access `o[partType]` of the source. -/
def OrderRec.part (o : OrderRec) : PartType → Option OrderPartRec
  | PartType.frames => o.frames
  | PartType.doors => o.doors

/-- `UploadedFile`: a handle into blob storage. -/
structure UploadedFileRec where
  id : Nat
  name : String
  mime : String
deriving DecidableEq, Repr

/-- `ConstructionSite`. -/
structure SiteRec where
  id : Nat
  name : String
  generalInfo : String
  generalInfoFiles : List UploadedFileRec
  orders : List OrderRec
deriving DecidableEq, Repr

/-- `Customer`. -/
structure CustomerRec where
  id : Nat
  name : String
  sites : List SiteRec
  notes : String
deriving DecidableEq, Repr

/-- `SpecialOption`. -/
structure SpecialOptionRec where
  id : Nat
  name : String
  details : String
  files : List UploadedFileRec
deriving DecidableEq, Repr

/-- A write to the persistence substrate (`saveUsers` / `saveCustomers` /
`saveOptions` mirroring the full collection to local storage). -/
inductive SaveEvent
  | savedUsers (users : List UserRec)
  | savedCustomers (customers : List CustomerRec)
  | savedOptions (options : List SpecialOptionRec)
deriving DecidableEq, Repr

/-- The module-level mutable state: the three in-memory arrays, a counter
standing in for `randomUUID`, and the chronological persistence log. -/
structure DB where
  users : List UserRec
  customers : List CustomerRec
  specialOptions : List SpecialOptionRec
  counter : Nat
  log : List SaveEvent
deriving DecidableEq, Repr

def dummyUser : UserRec := ⟨0, "", "", Role.Viewer, none⟩

def dummySite : SiteRec := ⟨0, "", "", [], []⟩

def dummyCustomer : CustomerRec := ⟨0, "", [], ""⟩

/-! ## Operations -/

/-- Drop the `password` property (`const { password, ...rest } = u`). -/
def stripPassword (u : UserRec) : UserRec :=
  { u with password := none }

/-- Fresh id from the counter, standing in for `self.crypto.randomUUID()`. -/
def freshId (n : Nat) : Nat := n

/-- Email synthesized for an imported user:
`OrderAssignedUser.toLowerCase().replace(/\s/g, '.') + '@example.com'`. -/
def importedEmail (name : String) : String :=
  String.mk ((jsToLower name).data.map (fun c => if c.isWhitespace then '.' else c))
    ++ "@example.com"

/-- `providedRole.charAt(0).toUpperCase() + providedRole.slice(1).toLowerCase()`. -/
def pascalCase (s : String) : String :=
  match s.data with
  | [] => ""
  | c :: rest => String.mk (c.toUpper :: rest.map Char.toLower)

/-- Role assigned to a synthesized imported user: default `Viewer`,
replaced by the case-normalized `UserRole` when it is one of the three
valid roles. -/
def importedRole (userRoleField : String) : Role :=
  let providedRole := jsTrim userRoleField
  if providedRole = "" then Role.Viewer
  else
    let formattedRole := pascalCase providedRole
    if formattedRole = "Admin" then Role.Admin
    else if formattedRole = "Editor" then Role.Editor
    else if formattedRole = "Viewer" then Role.Viewer
    else Role.Viewer

/-- `OrderPart.toLowerCase() === 'huisseries' ? 'frames' :
OrderPart.toLowerCase() === 'portes' ? 'doors' : null`. -/
def partTypeOf (s : String) : Option PartType :=
  if jsToLower s = "huisseries" then some PartType.frames
  else if jsToLower s = "portes" then some PartType.doors
  else none

/-- The dedup check body: `const part = o[partType];
return part && part.number === OrderNumber`. -/
def orderMatches (pt : PartType) (num : String) (o : OrderRec) : Bool :=
  match o.part pt with
  | some p => p.number == num
  | none => false

/-- Index of the first element satisfying `p`
(`Array.prototype.find`, tracked by position so the updated record can be
written back in place). -/
def firstIdx {α : Type} (p : α → Bool) : List α → Option Nat
  | [] => none
  | x :: xs => if p x then some 0 else (firstIdx p xs).map (· + 1)

/-- Write back at an index (in-place update of the found record), or
append when the index is the length (`push` of a freshly created record). -/
def place {α : Type} (l : List α) (i : Nat) (x : α) : List α :=
  if i < l.length then l.set i x else l ++ [x]

/-- The user synthesized by `importData` for an unknown `OrderAssignedUser`:
derived email, role from `UserRole`, placeholder password. -/
def newImportedUser (ctr : Nat) (assigned userRoleField : String) : UserRec :=
  ⟨freshId ctr, assigned, importedEmail assigned, importedRole userRoleField,
    some "password"⟩

/-- Step 2 of the per-row merge: resolve `OrderAssignedUser` against the
user list by case-insensitive name, synthesizing (and appending) a new
user when absent.  Returns the updated user list, counter and the
resolved user (`none` exactly when the field is empty). -/
def resolveUser (assigned userRoleField : String) (users : List UserRec) (ctr : Nat) :
    List UserRec × Nat × Option UserRec :=
  if assigned = "" then (users, ctr, none)
  else
    match users.find? (fun u => jsToLower u.name == jsToLower assigned) with
    | some u => (users, ctr, some u)
    | none =>
      (users ++ [newImportedUser ctr assigned userRoleField], ctr + 1,
        some (newImportedUser ctr assigned userRoleField))

/-- `if (CustomerNotes && !customer.notes) customer.notes = CustomerNotes`. -/
def backfillNotes (cNotes : String) (c : CustomerRec) : CustomerRec :=
  if cNotes ≠ "" ∧ c.notes = "" then { c with notes := cNotes } else c

/-- `if (SiteGeneralInfo && !site.generalInfo) site.generalInfo = SiteGeneralInfo`. -/
def backfillGeneralInfo (sGI : String) (s : SiteRec) : SiteRec :=
  if sGI ≠ "" ∧ s.generalInfo = "" then { s with generalInfo := sGI } else s

/-- Step 3: find the customer by case-insensitive name and backfill empty
notes, or create it seeded from `CustomerNotes`.  Returns the index to
write back to, the record, and the counter. -/
def resolveCustomer (cName cNotes : String) (customers : List CustomerRec) (ctr : Nat) :
    Nat × CustomerRec × Nat :=
  match firstIdx (fun c => jsToLower c.name == jsToLower cName) customers with
  | some i => (i, backfillNotes cNotes (customers.getD i dummyCustomer), ctr)
  | none => (customers.length, ⟨freshId ctr, cName, [], cNotes⟩, ctr + 1)

/-- Step 5: the same find-or-create with backfill for the site inside the
resolved customer. -/
def resolveSite (sName sGI : String) (sites : List SiteRec) (ctr : Nat) :
    Nat × SiteRec × Nat :=
  match firstIdx (fun s => jsToLower s.name == jsToLower sName) sites with
  | some j => (j, backfillGeneralInfo sGI (sites.getD j dummySite), ctr)
  | none => (sites.length, ⟨freshId ctr, sName, sGI, [], []⟩, ctr + 1)

/-- Steps 6-10 of the per-row merge: skip when `OrderPart`, `OrderNumber`
or the resolved user is missing, when the part type is unknown, or when an
order with that part type and number already exists; otherwise parse the
creation date (falling back to `now`) and append the new one-part order to
the site. -/
def mergeOrder (now : JSDate) (jsParse : String → Option JSDate)
    (oPart oNum oStatus oDate oNotes : String) (user? : Option UserRec)
    (site : SiteRec) (ctr : Nat) : SiteRec × Nat :=
  if oPart = "" ∨ oNum = "" ∨ user? = none then (site, ctr)
  else
    match partTypeOf oPart with
    | none => (site, ctr)
    | some pt =>
      if site.orders.any (orderMatches pt oNum) then (site, ctr)
      else
        let parsedDate := if oDate = "" then none else parseFrenchDateString jsParse oDate
        let u := user?.getD dummyUser
        let newOrderPart : OrderPartRec :=
          ⟨oNum, oStatus == "Envoyée", parsedDate.getD now, u.id, u.name, oNotes⟩
        let newOrder : OrderRec :=
          ⟨freshId ctr,
            if pt = PartType.frames then some newOrderPart else none,
            if pt = PartType.doors then some newOrderPart else none⟩
        ({ site with orders := site.orders ++ [newOrder] }, ctr + 1)

/-- The body of `parsedData.forEach(row => ...)` over the 11 destructured
fields: the full per-row merge algorithm. -/
def processRowCore (now : JSDate) (jsParse : String → Option JSDate)
    (cName cNotes sName sGI oPart oNum oStatus oDate oNotes assigned uRole : String)
    (db : DB) : DB :=
  if cName = "" then db
  else
    let ru := resolveUser assigned uRole db.users db.counter
    let rc := resolveCustomer cName cNotes db.customers ru.2.1
    let cIdx := rc.1
    let cust := rc.2.1
    if sName = "" then
      { db with users := ru.1, customers := place db.customers cIdx cust, counter := rc.2.2 }
    else
      let rs := resolveSite sName sGI cust.sites rc.2.2
      let mo := mergeOrder now jsParse oPart oNum oStatus oDate oNotes ru.2.2 rs.2.1 rs.2.2
      { db with users := ru.1,
                customers := place db.customers cIdx
                  { cust with sites := place cust.sites rs.1 mo.1 },
                counter := mo.2 }

/-- The per-row merge applied to a parsed row object: destructure the 11
recognized fields (`const { CustomerName, ... } = row`) and run the merge. -/
def processRow (now : JSDate) (jsParse : String → Option JSDate)
    (row : List (String × String)) (db : DB) : DB :=
  processRowCore now jsParse
    (rowGet row "CustomerName") (rowGet row "CustomerNotes")
    (rowGet row "SiteName") (rowGet row "SiteGeneralInfo")
    (rowGet row "OrderPart") (rowGet row "OrderNumber")
    (rowGet row "OrderStatus") (rowGet row "OrderCreationDate")
    (rowGet row "OrderNotes") (rowGet row "OrderAssignedUser")
    (rowGet row "UserRole") db

/-- `importData`: parse the CSV, throw on an empty row list, otherwise
merge every row in order, then persist customers and users and return the
updated collections with credentials stripped. -/
def importData (now : JSDate) (jsParse : String → Option JSDate) (csvString : String)
    (db : DB) : DB × Except String (List CustomerRec × List UserRec) :=
  let parsedData := parseCSV csvString
  if parsedData.isEmpty then (db, Except.error "Le fichier CSV est vide ou mal formaté.")
  else
    let db1 := parsedData.foldl (fun d row => processRow now jsParse row d) db
    let db2 := { db1 with
      log := db1.log ++ [SaveEvent.savedCustomers db1.customers, SaveEvent.savedUsers db1.users] }
    (db2, Except.ok (db2.customers, db2.users.map stripPassword))

/-- `addUser`: reject a duplicate name or email (case-insensitive),
otherwise append the new user and persist. -/
def addUser (name email password : String) (role : Role) (db : DB) :
    DB × Except String UserRec :=
  if db.users.any (fun u => jsToLower u.name == jsToLower name) then
    (db, Except.error "Un utilisateur avec ce nom existe déjà.")
  else if db.users.any (fun u => jsToLower u.email == jsToLower email) then
    (db, Except.error "Un utilisateur avec cet email existe déjà.")
  else
    let newUser : UserRec := ⟨freshId db.counter, name, email, role, some password⟩
    ({ db with users := db.users ++ [newUser], counter := db.counter + 1,
               log := db.log ++ [SaveEvent.savedUsers (db.users ++ [newUser])] },
      Except.ok (stripPassword newUser))

/-- `signup`: like `addUser` but the role is always `Viewer`. -/
def signup (name email passwordParam : String) (db : DB) : DB × Except String UserRec :=
  if db.users.any (fun u => jsToLower u.name == jsToLower name) then
    (db, Except.error "Un utilisateur avec ce nom existe déjà.")
  else if db.users.any (fun u => jsToLower u.email == jsToLower email) then
    (db, Except.error "Un utilisateur avec cet email existe déjà.")
  else
    let newUser : UserRec := ⟨freshId db.counter, name, email, Role.Viewer, some passwordParam⟩
    ({ db with users := db.users ++ [newUser], counter := db.counter + 1,
               log := db.log ++ [SaveEvent.savedUsers (db.users ++ [newUser])] },
      Except.ok (stripPassword newUser))

/-! ## Invariants -/

/-- No two users share a display name up to case. -/
def namesUniqueCI (us : List UserRec) : Prop :=
  us.Pairwise (fun a b => jsToLower a.name ≠ jsToLower b.name)

/-- No two users share an email up to case. -/
def emailsUniqueCI (us : List UserRec) : Prop :=
  us.Pairwise (fun a b => jsToLower a.email ≠ jsToLower b.email)

/-- The user-list invariant of the data model. -/
def usersUniqueCI (us : List UserRec) : Prop :=
  namesUniqueCI us ∧ emailsUniqueCI us

instance (us : List UserRec) : Decidable (namesUniqueCI us) :=
  inferInstanceAs
    (Decidable (us.Pairwise (fun (a b : UserRec) => jsToLower a.name ≠ jsToLower b.name)))

instance (us : List UserRec) : Decidable (emailsUniqueCI us) :=
  inferInstanceAs
    (Decidable (us.Pairwise (fun (a b : UserRec) => jsToLower a.email ≠ jsToLower b.email)))

instance (us : List UserRec) : Decidable (usersUniqueCI us) :=
  inferInstanceAs (Decidable (_ ∧ _))

/-- A fixed empty initial state for concrete runs. -/
def db0 : DB := ⟨[], [], [], 0, []⟩

/-- A fixed timestamp for concrete runs. -/
def now0 : JSDate := ⟨2026, 1, 2, 3, 4, 5⟩

/-- A fallback date parser that always fails, for concrete runs. -/
def jsParse0 : String → Option JSDate := fun _ => none




/-! ## Helper lemmas -/

theorem processRowCore_of_empty (now : JSDate) (jsParse : String → Option JSDate)
    (cNotes sName sGI oPart oNum oStatus oDate oNotes assigned uRole : String) (db : DB) :
    processRowCore now jsParse "" cNotes sName sGI oPart oNum oStatus oDate oNotes
      assigned uRole db = db := by
  simp [processRowCore]

theorem processRowCore_users (now : JSDate) (jsParse : String → Option JSDate)
    (cName cNotes sName sGI oPart oNum oStatus oDate oNotes assigned uRole : String)
    (db : DB) (h : cName ≠ "") :
    (processRowCore now jsParse cName cNotes sName sGI oPart oNum oStatus oDate oNotes
        assigned uRole db).users
      = (resolveUser assigned uRole db.users db.counter).1 := by
  simp only [processRowCore]
  rw [if_neg h]
  split
  · rfl
  · rfl

theorem processRow_users_of_empty (now : JSDate) (jsParse : String → Option JSDate)
    (row : List (String × String)) (db : DB) (h : rowGet row "CustomerName" = "") :
    (processRow now jsParse row db).users = db.users := by
  rw [processRow, h, processRowCore_of_empty]

theorem processRow_users_eq (now : JSDate) (jsParse : String → Option JSDate)
    (row : List (String × String)) (db : DB) (h : rowGet row "CustomerName" ≠ "") :
    (processRow now jsParse row db).users
      = (resolveUser (rowGet row "OrderAssignedUser") (rowGet row "UserRole")
          db.users db.counter).1 := by
  rw [processRow]
  exact processRowCore_users now jsParse _ _ _ _ _ _ _ _ _ _ _ db h

theorem pairwiseAppendOne {α : Type} {R : α → α → Prop} {l : List α} {x : α}
    (h : l.Pairwise R) (hx : ∀ v ∈ l, R v x) : (l ++ [x]).Pairwise R := by
  refine List.pairwise_append.mpr ⟨h, List.pairwise_singleton R x, ?_⟩
  intro a ha b hb
  rw [List.mem_singleton] at hb
  subst hb
  exact hx a ha

theorem addUser_users_unique (name email pw : String) (role : Role) (db : DB)
    (h : usersUniqueCI db.users) : usersUniqueCI (addUser name email pw role db).1.users := by
  unfold addUser
  split
  · exact h
  · split
    · exact h
    · rename_i h1 h2
      refine ⟨pairwiseAppendOne h.1 ?_, pairwiseAppendOne h.2 ?_⟩
      · intro v hv heq
        exact h1 (List.any_eq_true.mpr ⟨v, hv, by simp [heq]⟩)
      · intro v hv heq
        exact h2 (List.any_eq_true.mpr ⟨v, hv, by simp [heq]⟩)

theorem signup_users_unique (name email pw : String) (db : DB)
    (h : usersUniqueCI db.users) : usersUniqueCI (signup name email pw db).1.users := by
  unfold signup
  split
  · exact h
  · split
    · exact h
    · rename_i h1 h2
      refine ⟨pairwiseAppendOne h.1 ?_, pairwiseAppendOne h.2 ?_⟩
      · intro v hv heq
        exact h1 (List.any_eq_true.mpr ⟨v, hv, by simp [heq]⟩)
      · intro v hv heq
        exact h2 (List.any_eq_true.mpr ⟨v, hv, by simp [heq]⟩)

theorem processRow_names_unique (now : JSDate) (jsParse : String → Option JSDate)
    (row : List (String × String)) (db : DB) (h : namesUniqueCI db.users) :
    namesUniqueCI (processRow now jsParse row db).users := by
  by_cases hc : rowGet row "CustomerName" = ""
  · rw [processRow_users_of_empty now jsParse row db hc]
    exact h
  · rw [processRow_users_eq now jsParse row db hc]
    unfold resolveUser
    split
    · exact h
    · split
      · exact h
      · rename_i hne hfind
        refine pairwiseAppendOne h ?_
        intro v hv heq
        simp only [newImportedUser] at heq
        have hnp := List.find?_eq_none.mp hfind v hv
        exact hnp (by simp [heq])

theorem foldl_processRow_preserve (now : JSDate) (jsParse : String → Option JSDate)
    (P : DB → Prop)
    (hstep : ∀ r d, P d → P (processRow now jsParse r d)) :
    ∀ (rows : List (List (String × String))) (db : DB), P db →
      P (rows.foldl (fun d r => processRow now jsParse r d) db) := by
  intro rows
  induction rows with
  | nil => exact fun db h => h
  | cons r rest ih => exact fun db h => ih _ (hstep r db h)

theorem importData_names_unique (now : JSDate) (jsParse : String → Option JSDate)
    (csv : String) (db : DB) (h : namesUniqueCI db.users) :
    namesUniqueCI (importData now jsParse csv db).1.users := by
  by_cases hc : (parseCSV csv).isEmpty
  · simp only [importData]
    rw [if_pos hc]
    exact h
  · simp only [importData]
    rw [if_neg hc]
    exact foldl_processRow_preserve now jsParse (fun d => namesUniqueCI d.users)
      (fun r d hd => processRow_names_unique now jsParse r d hd) (parseCSV csv) db h

/-- A CSV field value that needs no quoting: no double quote, no comma. -/
def simpleField (f : String) : Prop := ∀ c ∈ f.data, c ≠ '"' ∧ c ≠ ','

instance (f : String) : Decidable (simpleField f) :=
  inferInstanceAs (Decidable (∀ c ∈ f.data, c ≠ '"' ∧ c ≠ ','))

theorem strMkData (s : String) : String.mk s.data = s := rfl

theorem parseFields_simple_consume :
    ∀ (cs : List Char), (∀ c ∈ cs, c ≠ '"' ∧ c ≠ ',') →
    ∀ (rest cur : List Char) (acc : List String),
    parseFields (cs ++ rest) false cur acc = parseFields rest false (cur ++ cs) acc := by
  intro cs
  induction cs with
  | nil => intro _ rest cur acc; simp
  | cons c cs ih =>
    intro h rest cur acc
    obtain ⟨hq, hcm⟩ := h c (by simp)
    have hrec := ih (fun x hx => h x (by simp [hx])) rest (cur ++ [c]) acc
    calc parseFields (c :: cs ++ rest) false cur acc
        = parseFields (cs ++ rest) false (cur ++ [c]) acc := by
          simp [parseFields, hq, hcm]
      _ = parseFields rest false ((cur ++ [c]) ++ cs) acc := hrec
      _ = parseFields rest false (cur ++ (c :: cs)) acc := by simp

theorem parseFields_post :
    ∀ (post : List String), (∀ f ∈ post, simpleField f) →
    ∀ (cur : List Char) (acc : List String),
    parseFields (post.flatMap (fun f => ',' :: f.data)) false cur acc
      = acc ++ [String.mk cur] ++ post := by
  intro post
  induction post with
  | nil => intro _ cur acc; simp [parseFields]
  | cons f post ih =>
    intro h cur acc
    have hf : ∀ c ∈ f.data, c ≠ '"' ∧ c ≠ ',' := h f (by simp)
    calc parseFields ((f :: post).flatMap (fun f => ',' :: f.data)) false cur acc
        = parseFields (',' :: (f.data ++ post.flatMap (fun f => ',' :: f.data))) false cur acc := by
          simp
      _ = parseFields (f.data ++ post.flatMap (fun f => ',' :: f.data)) false []
            (acc ++ [String.mk cur]) := by
          simp [parseFields]
      _ = parseFields (post.flatMap (fun f => ',' :: f.data)) false f.data
            (acc ++ [String.mk cur]) := by
          simpa using parseFields_simple_consume f.data hf _ [] _
      _ = (acc ++ [String.mk cur]) ++ [String.mk f.data] ++ post :=
          ih (fun x hx => h x (by simp [hx])) f.data _
      _ = acc ++ [String.mk cur] ++ (f :: post) := by simp [strMkData]

theorem parseFields_quoted :
    ∀ (post : List String), (∀ f ∈ post, simpleField f) →
    ∀ (acc : List String),
    parseFields ("\"a,b\"\"c\"".data ++ post.flatMap (fun f => ',' :: f.data)) false [] acc
      = acc ++ ["a,b\"c"] ++ post := by
  intro post h acc
  cases post with
  | nil =>
    show parseFields ("\"a,b\"\"c\"".data ++ []) false [] acc = acc ++ ["a,b\"c"] ++ []
    simp [parseFields]
  | cons f post' =>
    have hf : ∀ c ∈ f.data, c ≠ '"' ∧ c ≠ ',' := h f (by simp)
    calc parseFields ("\"a,b\"\"c\"".data ++ (f :: post').flatMap (fun f => ',' :: f.data))
            false [] acc
        = parseFields (f.data ++ post'.flatMap (fun f => ',' :: f.data)) false []
            (acc ++ ["a,b\"c"]) := by
          simp [parseFields, List.flatMap]
      _ = parseFields (post'.flatMap (fun f => ',' :: f.data)) false f.data
            (acc ++ ["a,b\"c"]) := by
          simpa using parseFields_simple_consume f.data hf _ [] _
      _ = (acc ++ ["a,b\"c"]) ++ [String.mk f.data] ++ post' :=
          parseFields_post post' (fun x hx => h x (by simp [hx])) f.data _
      _ = acc ++ ["a,b\"c"] ++ (f :: post') := by simp [strMkData]

theorem parseFields_main :
    ∀ (pre : List String), (∀ f ∈ pre, simpleField f) →
    ∀ (post : List String), (∀ f ∈ post, simpleField f) →
    ∀ (acc : List String),
    parseFields (pre.flatMap (fun f => f.data ++ [','])
        ++ "\"a,b\"\"c\"".data ++ post.flatMap (fun f => ',' :: f.data)) false [] acc
      = acc ++ (pre ++ ["a,b\"c"] ++ post) := by
  intro pre
  induction pre with
  | nil =>
    intro _ post hpost acc
    simpa using parseFields_quoted post hpost acc
  | cons f pre ih =>
    intro h post hpost acc
    have hf : ∀ c ∈ f.data, c ≠ '"' ∧ c ≠ ',' := h f (by simp)
    calc parseFields ((f :: pre).flatMap (fun f => f.data ++ [','])
            ++ "\"a,b\"\"c\"".data ++ post.flatMap (fun f => ',' :: f.data)) false [] acc
        = parseFields (f.data ++ (',' :: (pre.flatMap (fun f => f.data ++ [','])
            ++ "\"a,b\"\"c\"".data ++ post.flatMap (fun f => ',' :: f.data)))) false [] acc := by
          simp
      _ = parseFields (',' :: (pre.flatMap (fun f => f.data ++ [','])
            ++ "\"a,b\"\"c\"".data ++ post.flatMap (fun f => ',' :: f.data))) false f.data acc := by
          simpa using parseFields_simple_consume f.data hf _ [] _
      _ = parseFields (pre.flatMap (fun f => f.data ++ [','])
            ++ "\"a,b\"\"c\"".data ++ post.flatMap (fun f => ',' :: f.data)) false []
            (acc ++ [String.mk f.data]) := by
          simp [parseFields]
      _ = (acc ++ [String.mk f.data]) ++ (pre ++ ["a,b\"c"] ++ post) :=
          ih (fun x hx => h x (by simp [hx])) post hpost _
      _ = acc ++ ((f :: pre) ++ ["a,b\"c"] ++ post) := by simp [strMkData]

/-! ### Index and `place` lemmas -/

theorem getD_set_self {α : Type} :
    ∀ (l : List α) (i : Nat) (x d : α), i < l.length → (l.set i x).getD i d = x
  | [], i, x, d, h => absurd h (by simp)
  | a :: l, 0, x, d, _ => rfl
  | a :: l, i + 1, x, d, h => getD_set_self l i x d (Nat.lt_of_succ_lt_succ h)

theorem getD_set_ne {α : Type} :
    ∀ (l : List α) (i j : Nat) (x d : α), j ≠ i → (l.set i x).getD j d = l.getD j d
  | [], _, _, _, _, _ => rfl
  | a :: l, 0, 0, x, d, hne => absurd rfl hne
  | a :: l, 0, j + 1, x, d, _ => rfl
  | a :: l, i + 1, 0, x, d, _ => rfl
  | a :: l, i + 1, j + 1, x, d, hne =>
    getD_set_ne l i j x d (fun h => hne (by rw [h]))

theorem set_getD_self {α : Type} :
    ∀ (l : List α) (i : Nat) (d : α), i < l.length → l.set i (l.getD i d) = l
  | [], i, d, h => absurd h (by simp)
  | a :: l, 0, d, _ => rfl
  | a :: l, i + 1, d, h =>
    congrArg (a :: ·) (set_getD_self l i d (Nat.lt_of_succ_lt_succ h))

theorem getD_append_left {α : Type} :
    ∀ (l t : List α) (j : Nat) (d : α), j < l.length → (l ++ t).getD j d = l.getD j d
  | [], t, j, d, h => absurd h (by simp)
  | a :: l, t, 0, d, _ => rfl
  | a :: l, t, j + 1, d, h => getD_append_left l t j d (Nat.lt_of_succ_lt_succ h)

theorem getD_append_len {α : Type} :
    ∀ (l : List α) (x d : α), (l ++ [x]).getD l.length d = x
  | [], x, d => rfl
  | a :: l, x, d => getD_append_len l x d

theorem place_length {α : Type} (l : List α) (i : Nat) (x : α) :
    (place l i x).length = if i < l.length then l.length else l.length + 1 := by
  unfold place
  split <;> simp

theorem length_le_place {α : Type} (l : List α) (i : Nat) (x : α) :
    l.length ≤ (place l i x).length := by
  rw [place_length]
  split <;> omega

theorem place_getD_lt {α : Type} (l : List α) (i : Nat) (x d : α) (h : i < l.length) :
    (place l i x).getD i d = x := by
  unfold place
  rw [if_pos h]
  exact getD_set_self l i x d h

theorem place_getD_len {α : Type} (l : List α) (x d : α) :
    (place l l.length x).getD l.length d = x := by
  unfold place
  rw [if_neg (by omega)]
  exact getD_append_len l x d

theorem place_getD_ne {α : Type} (l : List α) (i j : Nat) (x d : α)
    (hne : j ≠ i) (hj : j < l.length) : (place l i x).getD j d = l.getD j d := by
  unfold place
  split
  · exact getD_set_ne l i j x d hne
  · exact getD_append_left l [x] j d hj

theorem place_self {α : Type} (l : List α) (i : Nat) (d : α) (h : i < l.length) :
    place l i (l.getD i d) = l := by
  unfold place
  rw [if_pos h]
  exact set_getD_self l i d h

theorem mem_place {α : Type} (l : List α) (i : Nat) (x y : α) (h : y ∈ place l i x) :
    y ∈ l ∨ y = x := by
  unfold place at h
  split at h
  · exact List.mem_or_eq_of_mem_set h
  · rcases List.mem_append.mp h with h' | h'
    · exact Or.inl h'
    · exact Or.inr (List.mem_singleton.mp h')

/-! ### `firstIdx` lemmas -/

theorem firstIdx_lt_length {α : Type} (p : α → Bool) :
    ∀ (l : List α) (i : Nat), firstIdx p l = some i → i < l.length := by
  intro l
  induction l with
  | nil => intro i h; simp [firstIdx] at h
  | cons x xs ih =>
    intro i h
    by_cases hp : p x
    · simp [firstIdx, hp] at h
      subst h
      simp
    · simp [firstIdx, hp] at h
      obtain ⟨j, hj, rfl⟩ := h
      have := ih j hj
      simp
      omega

theorem firstIdx_getD {α : Type} (p : α → Bool) (d : α) :
    ∀ (l : List α) (i : Nat), firstIdx p l = some i → p (l.getD i d) = true := by
  intro l
  induction l with
  | nil => intro i h; simp [firstIdx] at h
  | cons x xs ih =>
    intro i h
    by_cases hp : p x
    · simp [firstIdx, hp] at h
      subst h
      exact hp
    · simp [firstIdx, hp] at h
      obtain ⟨j, hj, rfl⟩ := h
      exact ih j hj

theorem firstIdx_min {α : Type} (p : α → Bool) (d : α) :
    ∀ (l : List α) (i : Nat), firstIdx p l = some i →
      ∀ j, j < i → p (l.getD j d) = false := by
  intro l
  induction l with
  | nil => intro i h; simp [firstIdx] at h
  | cons x xs ih =>
    intro i h j hj
    by_cases hp : p x
    · simp [firstIdx, hp] at h
      omega
    · simp [firstIdx, hp] at h
      obtain ⟨k, hk, rfl⟩ := h
      cases j with
      | zero => simpa using hp
      | succ j => exact ih k hk j (Nat.lt_of_succ_lt_succ hj)

theorem firstIdx_intro {α : Type} (p : α → Bool) (d : α) :
    ∀ (l : List α) (i : Nat), i < l.length → p (l.getD i d) = true →
      (∀ j, j < i → p (l.getD j d) = false) → firstIdx p l = some i := by
  intro l
  induction l with
  | nil => intro i h; simp at h
  | cons x xs ih =>
    intro i hi hp hmin
    cases i with
    | zero => simp [firstIdx]; simpa using hp
    | succ i =>
      have hx : p x = false := by simpa using hmin 0 (Nat.succ_pos i)
      have hi' : i < xs.length := by simp at hi; omega
      have hrec : firstIdx p xs = some i :=
        ih i hi' hp (fun j hj => hmin (j + 1) (by omega))
      simp [firstIdx, hx, hrec]

theorem firstIdx_none {α : Type} (p : α → Bool) :
    ∀ (l : List α), firstIdx p l = none → ∀ x ∈ l, p x = false := by
  intro l
  induction l with
  | nil => intro _ x hx; simp at hx
  | cons y ys ih =>
    intro h x hx
    by_cases hp : p y
    · simp [firstIdx, hp] at h
    · simp [firstIdx, hp] at h
      rcases List.mem_cons.mp hx with rfl | hx'
      · simpa using hp
      · exact ih h x hx'

theorem firstIdx_append_none {α : Type} (p : α → Bool) (x : α)
    (hx : p x = true) :
    ∀ (l : List α), firstIdx p l = none → firstIdx p (l ++ [x]) = some l.length := by
  intro l
  induction l with
  | nil => simp [firstIdx, hx]
  | cons y ys ih =>
    intro h
    by_cases hp : p y
    · simp [firstIdx, hp] at h
    · simp [firstIdx, hp] at h
      have hrec := ih h
      simp [firstIdx, hp, hrec]

/-! ### Characterization of the resolve steps -/

theorem resolveUser_users (assigned uRole : String) (users : List UserRec) (ctr : Nat) :
    ∃ t, (resolveUser assigned uRole users ctr).1 = users ++ t := by
  unfold resolveUser
  split
  · exact ⟨[], by simp⟩
  · split
    · exact ⟨[], by simp⟩
    · exact ⟨[newImportedUser ctr assigned uRole], rfl⟩

theorem resolveUser_match (assigned uRole : String) (users : List UserRec) (ctr : Nat)
    (h : assigned ≠ "") :
    ∃ u ∈ (resolveUser assigned uRole users ctr).1,
      jsToLower u.name = jsToLower assigned := by
  unfold resolveUser
  rw [if_neg h]
  cases hf : users.find? (fun u => jsToLower u.name == jsToLower assigned) with
  | some u =>
    refine ⟨u, List.mem_of_find?_eq_some hf, ?_⟩
    simpa using List.find?_some hf
  | none =>
    exact ⟨newImportedUser ctr assigned uRole, by simp, rfl⟩

theorem resolveUser_user_some (assigned uRole : String) (users : List UserRec) (ctr : Nat)
    (h : assigned ≠ "") :
    (resolveUser assigned uRole users ctr).2.2 ≠ none := by
  unfold resolveUser
  rw [if_neg h]
  cases hf : users.find? (fun u => jsToLower u.name == jsToLower assigned) <;> simp

theorem resolveUser_of_found (assigned uRole : String) (users : List UserRec) (ctr : Nat)
    (h : assigned ≠ "") (hu : ∃ u ∈ users, jsToLower u.name = jsToLower assigned) :
    (resolveUser assigned uRole users ctr).1 = users
      ∧ (resolveUser assigned uRole users ctr).2.1 = ctr := by
  obtain ⟨u, hmem, hname⟩ := hu
  unfold resolveUser
  rw [if_neg h]
  cases hf : users.find? (fun u => jsToLower u.name == jsToLower assigned) with
  | some v => simp
  | none =>
    exact absurd (by simp [hname]) (List.find?_eq_none.mp hf u hmem)

theorem resolveCustomer_found (cName cNotes : String) (customers : List CustomerRec)
    (ctr : Nat) (i : Nat)
    (h : firstIdx (fun c => jsToLower c.name == jsToLower cName) customers = some i) :
    resolveCustomer cName cNotes customers ctr
      = (i, backfillNotes cNotes (customers.getD i dummyCustomer), ctr) := by
  unfold resolveCustomer
  rw [h]

theorem resolveCustomer_new (cName cNotes : String) (customers : List CustomerRec)
    (ctr : Nat)
    (h : firstIdx (fun c => jsToLower c.name == jsToLower cName) customers = none) :
    resolveCustomer cName cNotes customers ctr
      = (customers.length, ⟨freshId ctr, cName, [], cNotes⟩, ctr + 1) := by
  unfold resolveCustomer
  rw [h]

theorem resolveSite_found (sName sGI : String) (sites : List SiteRec) (ctr : Nat) (j : Nat)
    (h : firstIdx (fun s => jsToLower s.name == jsToLower sName) sites = some j) :
    resolveSite sName sGI sites ctr
      = (j, backfillGeneralInfo sGI (sites.getD j dummySite), ctr) := by
  unfold resolveSite
  rw [h]

theorem resolveSite_new (sName sGI : String) (sites : List SiteRec) (ctr : Nat)
    (h : firstIdx (fun s => jsToLower s.name == jsToLower sName) sites = none) :
    resolveSite sName sGI sites ctr
      = (sites.length, ⟨freshId ctr, sName, sGI, [], []⟩, ctr + 1) := by
  unfold resolveSite
  rw [h]

/-! ### Backfill lemmas -/

theorem backfillNotes_id (n : String) (c : CustomerRec) : (backfillNotes n c).id = c.id := by
  unfold backfillNotes
  split <;> rfl

theorem backfillNotes_name (n : String) (c : CustomerRec) :
    (backfillNotes n c).name = c.name := by
  unfold backfillNotes
  split <;> rfl

theorem backfillNotes_sites (n : String) (c : CustomerRec) :
    (backfillNotes n c).sites = c.sites := by
  unfold backfillNotes
  split <;> rfl

theorem backfillNotes_kept (n : String) (c : CustomerRec) (h : c.notes ≠ "") :
    (backfillNotes n c).notes = c.notes := by
  unfold backfillNotes
  split
  · rename_i hcond
    exact absurd hcond.2 h
  · rfl

theorem backfillNotes_nonempty (n : String) (c : CustomerRec) (h : n ≠ "") :
    (backfillNotes n c).notes ≠ "" := by
  unfold backfillNotes
  split
  · exact h
  · rename_i hcond
    intro he
    exact hcond ⟨h, he⟩

theorem backfillGI_id (g : String) (s : SiteRec) : (backfillGeneralInfo g s).id = s.id := by
  unfold backfillGeneralInfo
  split <;> rfl

theorem backfillGI_name (g : String) (s : SiteRec) :
    (backfillGeneralInfo g s).name = s.name := by
  unfold backfillGeneralInfo
  split <;> rfl

theorem backfillGI_orders (g : String) (s : SiteRec) :
    (backfillGeneralInfo g s).orders = s.orders := by
  unfold backfillGeneralInfo
  split <;> rfl

theorem backfillGI_kept (g : String) (s : SiteRec) (h : s.generalInfo ≠ "") :
    (backfillGeneralInfo g s).generalInfo = s.generalInfo := by
  unfold backfillGeneralInfo
  split
  · rename_i hcond
    exact absurd hcond.2 h
  · rfl

theorem backfillGI_nonempty (g : String) (s : SiteRec) (h : g ≠ "") :
    (backfillGeneralInfo g s).generalInfo ≠ "" := by
  unfold backfillGeneralInfo
  split
  · exact h
  · rename_i hcond
    intro he
    exact hcond ⟨h, he⟩

/-! ### `mergeOrder` lemmas -/

theorem mergeOrder_spec (now : JSDate) (jsParse : String → Option JSDate)
    (oPart oNum oStatus oDate oNotes : String) (user? : Option UserRec)
    (site : SiteRec) (ctr : Nat) :
    ∃ t, (mergeOrder now jsParse oPart oNum oStatus oDate oNotes user? site ctr).1
      = { site with orders := site.orders ++ t } := by
  unfold mergeOrder
  split
  · exact ⟨[], by cases site <;> simp⟩
  · split
    · exact ⟨[], by cases site <;> simp⟩
    · split
      · exact ⟨[], by cases site <;> simp⟩
      · exact ⟨[_], rfl⟩

theorem mergeOrder_skip_missing (now : JSDate) (jsParse : String → Option JSDate)
    (oPart oNum oStatus oDate oNotes : String) (user? : Option UserRec)
    (site : SiteRec) (ctr : Nat) (h : oPart = "" ∨ oNum = "" ∨ user? = none) :
    mergeOrder now jsParse oPart oNum oStatus oDate oNotes user? site ctr = (site, ctr) := by
  unfold mergeOrder
  rw [if_pos h]

theorem mergeOrder_skip_part (now : JSDate) (jsParse : String → Option JSDate)
    (oPart oNum oStatus oDate oNotes : String) (user? : Option UserRec)
    (site : SiteRec) (ctr : Nat) (h : partTypeOf oPart = none) :
    mergeOrder now jsParse oPart oNum oStatus oDate oNotes user? site ctr = (site, ctr) := by
  unfold mergeOrder
  split
  · rfl
  · rw [h]

theorem mergeOrder_skip_dup (now : JSDate) (jsParse : String → Option JSDate)
    (oPart oNum oStatus oDate oNotes : String) (user? : Option UserRec)
    (site : SiteRec) (ctr : Nat) (pt : PartType) (hp : partTypeOf oPart = some pt)
    (hd : site.orders.any (orderMatches pt oNum) = true) :
    mergeOrder now jsParse oPart oNum oStatus oDate oNotes user? site ctr = (site, ctr) := by
  unfold mergeOrder
  split
  · rfl
  · rw [hp]
    dsimp only
    rw [if_pos hd]

theorem mergeOrder_creates (now : JSDate) (jsParse : String → Option JSDate)
    (oPart oNum oStatus oDate oNotes : String) (user? : Option UserRec)
    (site : SiteRec) (ctr : Nat) (pt : PartType)
    (h1 : ¬(oPart = "" ∨ oNum = "" ∨ user? = none))
    (hp : partTypeOf oPart = some pt)
    (hd : site.orders.any (orderMatches pt oNum) = false) :
    mergeOrder now jsParse oPart oNum oStatus oDate oNotes user? site ctr
      = ({ site with orders := site.orders ++
          [⟨freshId ctr,
            if pt = PartType.frames then
              some ⟨oNum, oStatus == "Envoyée",
                ((if oDate = "" then none else parseFrenchDateString jsParse oDate).getD now),
                (user?.getD dummyUser).id, (user?.getD dummyUser).name, oNotes⟩
            else none,
            if pt = PartType.doors then
              some ⟨oNum, oStatus == "Envoyée",
                ((if oDate = "" then none else parseFrenchDateString jsParse oDate).getD now),
                (user?.getD dummyUser).id, (user?.getD dummyUser).name, oNotes⟩
            else none⟩] }, ctr + 1) := by
  unfold mergeOrder
  rw [if_neg h1, hp]
  dsimp only
  rw [if_neg (by rw [hd]; simp)]

/-! ### Evolution relations: what the per-row merge can do to the tree -/

/-- How a site can evolve under import: identity and name fixed, a
non-empty general info kept verbatim, orders only appended. -/
def siteLe (s s' : SiteRec) : Prop :=
  s'.id = s.id ∧ s'.name = s.name
    ∧ (s.generalInfo ≠ "" → s'.generalInfo = s.generalInfo)
    ∧ ∃ t, s'.orders = s.orders ++ t

/-- How a customer can evolve under import: identity and name fixed,
non-empty notes kept, sites only appended with each existing site
evolving positionally. -/
def custLe (c c' : CustomerRec) : Prop :=
  c'.id = c.id ∧ c'.name = c.name
    ∧ (c.notes ≠ "" → c'.notes = c.notes)
    ∧ c.sites.length ≤ c'.sites.length
    ∧ ∀ i, i < c.sites.length →
        siteLe (c.sites.getD i dummySite) (c'.sites.getD i dummySite)

/-- How the state can evolve under import: users only appended, customers
only appended with each existing customer evolving positionally. -/
def dbLe (db db' : DB) : Prop :=
  (∃ t, db'.users = db.users ++ t)
    ∧ db.customers.length ≤ db'.customers.length
    ∧ ∀ i, i < db.customers.length →
        custLe (db.customers.getD i dummyCustomer) (db'.customers.getD i dummyCustomer)

theorem siteLe_refl (s : SiteRec) : siteLe s s :=
  ⟨rfl, rfl, fun _ => rfl, [], by simp⟩

theorem siteLe_trans {a b c : SiteRec} (h1 : siteLe a b) (h2 : siteLe b c) : siteLe a c := by
  obtain ⟨i1, n1, g1, t1, o1⟩ := h1
  obtain ⟨i2, n2, g2, t2, o2⟩ := h2
  refine ⟨i2.trans i1, n2.trans n1, ?_, t1 ++ t2, ?_⟩
  · intro h
    have hb : b.generalInfo ≠ "" := by
      rw [g1 h]
      exact h
    exact (g2 hb).trans (g1 h)
  · rw [o2, o1, List.append_assoc]

theorem custLe_refl (c : CustomerRec) : custLe c c :=
  ⟨rfl, rfl, fun _ => rfl, Nat.le_refl _, fun _ _ => siteLe_refl _⟩

theorem custLe_trans {a b c : CustomerRec} (h1 : custLe a b) (h2 : custLe b c) :
    custLe a c := by
  obtain ⟨i1, n1, m1, l1, s1⟩ := h1
  obtain ⟨i2, n2, m2, l2, s2⟩ := h2
  refine ⟨i2.trans i1, n2.trans n1, ?_, l1.trans l2, ?_⟩
  · intro h
    have hb : b.notes ≠ "" := by
      rw [m1 h]
      exact h
    exact (m2 hb).trans (m1 h)
  · intro i hi
    exact siteLe_trans (s1 i hi) (s2 i (Nat.lt_of_lt_of_le hi l1))

theorem dbLe_refl (db : DB) : dbLe db db :=
  ⟨⟨[], by simp⟩, Nat.le_refl _, fun _ _ => custLe_refl _⟩

theorem dbLe_trans {a b c : DB} (h1 : dbLe a b) (h2 : dbLe b c) : dbLe a c := by
  obtain ⟨⟨t1, u1⟩, l1, c1⟩ := h1
  obtain ⟨⟨t2, u2⟩, l2, c2⟩ := h2
  refine ⟨⟨t1 ++ t2, by rw [u2, u1, List.append_assoc]⟩, l1.trans l2, ?_⟩
  intro i hi
  exact custLe_trans (c1 i hi) (c2 i (Nat.lt_of_lt_of_le hi l1))

theorem custLe_backfillNotes (n : String) (c : CustomerRec) :
    custLe c (backfillNotes n c) := by
  refine ⟨backfillNotes_id n c, backfillNotes_name n c,
    fun h => backfillNotes_kept n c h, ?_, ?_⟩
  · rw [backfillNotes_sites]
  · intro i hi
    rw [backfillNotes_sites]
    exact siteLe_refl _

theorem siteLe_backfillGI (g : String) (s : SiteRec) :
    siteLe s (backfillGeneralInfo g s) :=
  ⟨backfillGI_id g s, backfillGI_name g s, fun h => backfillGI_kept g s h,
    [], by rw [backfillGI_orders]; simp⟩

theorem siteLe_mergeOrder (now : JSDate) (jsParse : String → Option JSDate)
    (oPart oNum oStatus oDate oNotes : String) (user? : Option UserRec)
    (site : SiteRec) (ctr : Nat) :
    siteLe site (mergeOrder now jsParse oPart oNum oStatus oDate oNotes user? site ctr).1 := by
  obtain ⟨t, ht⟩ := mergeOrder_spec now jsParse oPart oNum oStatus oDate oNotes user? site ctr
  rw [ht]
  exact ⟨rfl, rfl, fun _ => rfl, t, rfl⟩

theorem custLe_place_site (c1 : CustomerRec) (si : Nat) (s' : SiteRec)
    (hcase : (si < c1.sites.length ∧ siteLe (c1.sites.getD si dummySite) s')
      ∨ si = c1.sites.length) :
    custLe c1 { c1 with sites := place c1.sites si s' } := by
  refine ⟨rfl, rfl, fun _ => rfl, length_le_place _ _ _, ?_⟩
  intro j hj
  rcases hcase with ⟨hsi, hs⟩ | rfl
  · by_cases hji : j = si
    · subst hji
      rw [place_getD_lt _ _ _ _ hsi]
      exact hs
    · rw [place_getD_ne _ _ _ _ _ hji hj]
      exact siteLe_refl _
  · rw [place_getD_ne _ _ _ _ _ (by omega) hj]
    exact siteLe_refl _

theorem dbLe_mk (db : DB) (users' : List UserRec) (ctr' : Nat) (ci : Nat) (c' : CustomerRec)
    (hu : ∃ t, users' = db.users ++ t)
    (hcase : (ci < db.customers.length ∧ custLe (db.customers.getD ci dummyCustomer) c')
      ∨ ci = db.customers.length) :
    dbLe db { db with users := users',
                      customers := place db.customers ci c',
                      counter := ctr' } := by
  refine ⟨hu, length_le_place _ _ _, ?_⟩
  intro j hj
  rcases hcase with ⟨hci, hc⟩ | rfl
  · by_cases hji : j = ci
    · subst hji
      rw [place_getD_lt _ _ _ _ hci]
      exact hc
    · rw [place_getD_ne _ _ _ _ _ hji hj]
      exact custLe_refl _
  · rw [place_getD_ne _ _ _ _ _ (by omega) hj]
    exact custLe_refl _

theorem processRowCore_dbLe (now : JSDate) (jsParse : String → Option JSDate)
    (cName cNotes sName sGI oPart oNum oStatus oDate oNotes assigned uRole : String)
    (db : DB) :
    dbLe db (processRowCore now jsParse cName cNotes sName sGI oPart oNum oStatus oDate
      oNotes assigned uRole db) := by
  by_cases hc : cName = ""
  · subst hc
    rw [processRowCore_of_empty]
    exact dbLe_refl db
  · simp only [processRowCore]
    rw [if_neg hc]
    obtain ⟨tu, htu⟩ := resolveUser_users assigned uRole db.users db.counter
    cases hfi : firstIdx (fun c => jsToLower c.name == jsToLower cName) db.customers with
    | some i =>
      rw [resolveCustomer_found cName cNotes db.customers _ i hfi]
      have hi : i < db.customers.length := firstIdx_lt_length _ _ _ hfi
      dsimp only
      by_cases hs : sName = ""
      · rw [if_pos hs]
        exact dbLe_mk db _ _ i _ ⟨tu, htu⟩ (Or.inl ⟨hi, custLe_backfillNotes _ _⟩)
      · rw [if_neg hs]
        cases hfj : firstIdx (fun s => jsToLower s.name == jsToLower sName)
            (backfillNotes cNotes (db.customers.getD i dummyCustomer)).sites with
        | some j =>
          rw [resolveSite_found sName sGI _ _ j hfj]
          have hj : j < (backfillNotes cNotes (db.customers.getD i dummyCustomer)).sites.length :=
            firstIdx_lt_length _ _ _ hfj
          dsimp only
          refine dbLe_mk db _ _ i _ ⟨tu, htu⟩ (Or.inl ⟨hi, ?_⟩)
          refine custLe_trans (custLe_backfillNotes cNotes _)
            (custLe_place_site _ j _ (Or.inl ⟨hj, ?_⟩))
          exact siteLe_trans (siteLe_backfillGI sGI _)
            (siteLe_mergeOrder now jsParse oPart oNum oStatus oDate oNotes _ _ _)
        | none =>
          rw [resolveSite_new sName sGI _ _ hfj]
          dsimp only
          exact dbLe_mk db _ _ i _ ⟨tu, htu⟩
            (Or.inl ⟨hi, custLe_trans (custLe_backfillNotes _ _)
              (custLe_place_site _ _ _ (Or.inr rfl))⟩)
    | none =>
      rw [resolveCustomer_new cName cNotes db.customers _ hfi]
      dsimp only
      by_cases hs : sName = ""
      · rw [if_pos hs]
        exact dbLe_mk db _ _ _ _ ⟨tu, htu⟩ (Or.inr rfl)
      · rw [if_neg hs]
        exact dbLe_mk db _ _ _ _ ⟨tu, htu⟩ (Or.inr rfl)

theorem processRow_dbLe (now : JSDate) (jsParse : String → Option JSDate)
    (row : List (String × String)) (db : DB) :
    dbLe db (processRow now jsParse row db) := by
  rw [processRow]
  exact processRowCore_dbLe now jsParse _ _ _ _ _ _ _ _ _ _ _ db

theorem foldl_processRow_dbLe (now : JSDate) (jsParse : String → Option JSDate) :
    ∀ (rows : List (List (String × String))) (db : DB),
      dbLe db (rows.foldl (fun d r => processRow now jsParse r d) db) := by
  intro rows
  induction rows with
  | nil => exact fun db => dbLe_refl db
  | cons r rest ih =>
    intro db
    exact dbLe_trans (processRow_dbLe now jsParse r db) (ih (processRow now jsParse r db))

/-! ### Orders across the whole tree -/

/-- All orders of a customer, across its sites. -/
def custOrders (c : CustomerRec) : List OrderRec :=
  c.sites.flatMap (fun s => s.orders)

/-- All orders in the in-memory state, across customers and sites. -/
def allOrders (db : DB) : List OrderRec :=
  db.customers.flatMap custOrders

theorem mem_flatMap_place {α β : Type} (f : α → List β) (l : List α) (i : Nat) (x : α)
    (b : β) (h : b ∈ (place l i x).flatMap f) : b ∈ l.flatMap f ∨ b ∈ f x := by
  rw [List.mem_flatMap] at h
  obtain ⟨a, ha, hb⟩ := h
  rcases mem_place l i x a ha with h' | rfl
  · exact Or.inl (List.mem_flatMap.mpr ⟨a, h', hb⟩)
  · exact Or.inr hb

theorem flatMap_set_eq {α β : Type} (f : α → List β) (d : α) :
    ∀ (l : List α) (i : Nat) (x : α), i < l.length → f x = f (l.getD i d) →
      (l.set i x).flatMap f = l.flatMap f := by
  intro l
  induction l with
  | nil => intro i x h; simp at h
  | cons a l ih =>
    intro i x hi hf
    cases i with
    | zero =>
      simp only [List.getD_cons_zero] at hf
      simp [hf]
    | succ i =>
      simp only [List.getD_cons_succ] at hf
      simp only [List.set_cons_succ, List.flatMap_cons]
      rw [ih i x (by simpa using hi) hf]

theorem flatMap_place_eq {α β : Type} (f : α → List β) (d : α) (l : List α) (i : Nat)
    (x : α)
    (hcase : (i < l.length ∧ f x = f (l.getD i d)) ∨ (i = l.length ∧ f x = [])) :
    (place l i x).flatMap f = l.flatMap f := by
  unfold place
  rcases hcase with ⟨hi, hf⟩ | ⟨rfl, hf⟩
  · rw [if_pos hi]
    exact flatMap_set_eq f d l i x hi hf
  · rw [if_neg (by omega)]
    simp [hf]

theorem getD_mem {α : Type} :
    ∀ (l : List α) (i : Nat) (d : α), i < l.length → l.getD i d ∈ l
  | [], _, _, h => absurd h (by simp)
  | a :: l, 0, _, _ => List.mem_cons_self a l
  | a :: l, i + 1, d, h =>
    List.mem_cons_of_mem a (getD_mem l i d (Nat.lt_of_succ_lt_succ h))

theorem mem_of_custOrders (customers : List CustomerRec) (i : Nat)
    (hi : i < customers.length) (o : OrderRec)
    (ho : o ∈ custOrders (customers.getD i dummyCustomer)) :
    o ∈ customers.flatMap custOrders :=
  List.mem_flatMap.mpr ⟨_, getD_mem customers i dummyCustomer hi, ho⟩

theorem mem_custOrders_of_site (c : CustomerRec) (j : Nat) (hj : j < c.sites.length)
    (o : OrderRec) (ho : o ∈ (c.sites.getD j dummySite).orders) : o ∈ custOrders c :=
  List.mem_flatMap.mpr ⟨_, getD_mem c.sites j dummySite hj, ho⟩

theorem custOrders_backfillNotes (n : String) (c : CustomerRec) :
    custOrders (backfillNotes n c) = custOrders c := by
  unfold custOrders
  rw [backfillNotes_sites]

/-- The orders of the site returned by `mergeOrder`: either unchanged, or
one new single-part order appended whose part carries the number, the
`isSent` flag computed from `OrderStatus`, and the resolved-or-fallback
creation date. -/
theorem mergeOrder_orders_cases (now : JSDate) (jsParse : String → Option JSDate)
    (oPart oNum oStatus oDate oNotes : String) (user? : Option UserRec)
    (site : SiteRec) (ctr : Nat) :
    (mergeOrder now jsParse oPart oNum oStatus oDate oNotes user? site ctr).1.orders
        = site.orders
      ∨ ∃ pt, partTypeOf oPart = some pt ∧
          (mergeOrder now jsParse oPart oNum oStatus oDate oNotes user? site ctr).1.orders
            = site.orders ++
              [⟨freshId ctr,
                if pt = PartType.frames then
                  some ⟨oNum, oStatus == "Envoyée",
                    ((if oDate = "" then none else parseFrenchDateString jsParse oDate).getD now),
                    (user?.getD dummyUser).id, (user?.getD dummyUser).name, oNotes⟩
                else none,
                if pt = PartType.doors then
                  some ⟨oNum, oStatus == "Envoyée",
                    ((if oDate = "" then none else parseFrenchDateString jsParse oDate).getD now),
                    (user?.getD dummyUser).id, (user?.getD dummyUser).name, oNotes⟩
                else none⟩] := by
  by_cases h1 : oPart = "" ∨ oNum = "" ∨ user? = none
  · rw [mergeOrder_skip_missing now jsParse oPart oNum oStatus oDate oNotes user? site ctr h1]
    exact Or.inl rfl
  · cases hp : partTypeOf oPart with
    | none =>
      rw [mergeOrder_skip_part now jsParse oPart oNum oStatus oDate oNotes user? site ctr hp]
      exact Or.inl rfl
    | some pt =>
      cases hd : site.orders.any (orderMatches pt oNum) with
      | true =>
        rw [mergeOrder_skip_dup now jsParse oPart oNum oStatus oDate oNotes user? site ctr pt hp hd]
        exact Or.inl rfl
      | false =>
        right
        refine ⟨pt, rfl, ?_⟩
        rw [mergeOrder_creates now jsParse oPart oNum oStatus oDate oNotes user? site ctr pt h1 hp hd]

/-- When `mergeOrder` does not append (in particular when the part type is
unknown), the site-and-counter pair is returned unchanged. -/
theorem processRowCore_allOrders_skip (now : JSDate) (jsParse : String → Option JSDate)
    (cName cNotes sName sGI oPart oNum oStatus oDate oNotes assigned uRole : String)
    (db : DB) (h : partTypeOf oPart = none) :
    allOrders (processRowCore now jsParse cName cNotes sName sGI oPart oNum oStatus oDate
      oNotes assigned uRole db) = allOrders db := by
  by_cases hc : cName = ""
  · subst hc
    rw [processRowCore_of_empty]
  · simp only [processRowCore]
    rw [if_neg hc]
    cases hfi : firstIdx (fun c => jsToLower c.name == jsToLower cName) db.customers with
    | some i =>
      rw [resolveCustomer_found cName cNotes db.customers _ i hfi]
      have hi : i < db.customers.length := firstIdx_lt_length _ _ _ hfi
      dsimp only
      by_cases hs : sName = ""
      · rw [if_pos hs]
        exact flatMap_place_eq custOrders dummyCustomer _ _ _
          (Or.inl ⟨hi, custOrders_backfillNotes _ _⟩)
      · rw [if_neg hs]
        cases hfj : firstIdx (fun s => jsToLower s.name == jsToLower sName)
            (backfillNotes cNotes (db.customers.getD i dummyCustomer)).sites with
        | some j =>
          rw [resolveSite_found sName sGI _ _ j hfj]
          have hj := firstIdx_lt_length _ _ _ hfj
          dsimp only
          rw [mergeOrder_skip_part now jsParse oPart oNum oStatus oDate oNotes _ _ _ h]
          dsimp only
          refine flatMap_place_eq custOrders dummyCustomer _ _ _ (Or.inl ⟨hi, ?_⟩)
          show custOrders _ = custOrders _
          unfold custOrders
          dsimp only
          rw [show (backfillNotes cNotes (db.customers.getD i dummyCustomer)).sites
              = (db.customers.getD i dummyCustomer).sites from backfillNotes_sites _ _] at hfj hj ⊢
          refine (flatMap_place_eq (fun s => s.orders) dummySite _ _ _
            (Or.inl ⟨hj, ?_⟩))
          exact backfillGI_orders sGI _
        | none =>
          rw [resolveSite_new sName sGI _ _ hfj]
          dsimp only
          rw [mergeOrder_skip_part now jsParse oPart oNum oStatus oDate oNotes _ _ _ h]
          dsimp only
          refine flatMap_place_eq custOrders dummyCustomer _ _ _ (Or.inl ⟨hi, ?_⟩)
          show custOrders _ = custOrders _
          unfold custOrders
          dsimp only
          rw [backfillNotes_sites]
          refine flatMap_place_eq (fun s => s.orders) dummySite _ _ _ (Or.inr ⟨rfl, ?_⟩)
          rfl
    | none =>
      rw [resolveCustomer_new cName cNotes db.customers _ hfi]
      dsimp only
      by_cases hs : sName = ""
      · rw [if_pos hs]
        refine flatMap_place_eq custOrders dummyCustomer _ _ _ (Or.inr ⟨rfl, rfl⟩)
      · rw [if_neg hs]
        rw [resolveSite_new sName sGI _ _ (by simp [firstIdx])]
        dsimp only
        rw [mergeOrder_skip_part now jsParse oPart oNum oStatus oDate oNotes _ _ _ h]
        dsimp only
        refine flatMap_place_eq custOrders dummyCustomer _ _ _ (Or.inr ⟨rfl, ?_⟩)
        show custOrders _ = []
        unfold custOrders
        dsimp only
        rfl

theorem part_of_created (idv : Nat) (q : OrderPartRec) (pt pt' : PartType)
    (p : OrderPartRec)
    (hp : (OrderRec.mk idv (if pt = PartType.frames then some q else none)
      (if pt = PartType.doors then some q else none)).part pt' = some p) : p = q := by
  cases pt' <;> cases pt <;> simp [OrderRec.part] at hp <;>
    first
    | exact hp.symm
    | exact hp

theorem processRowCore_allOrders_mem (now : JSDate) (jsParse : String → Option JSDate)
    (cName cNotes sName sGI oPart oNum oStatus oDate oNotes assigned uRole : String)
    (db : DB) (o : OrderRec)
    (ho : o ∈ allOrders (processRowCore now jsParse cName cNotes sName sGI oPart oNum
      oStatus oDate oNotes assigned uRole db)) :
    o ∈ allOrders db
      ∨ ∀ pt p, o.part pt = some p → p.isSent = (oStatus == "Envoyée") := by
  by_cases hc : cName = ""
  · subst hc
    rw [processRowCore_of_empty] at ho
    exact Or.inl ho
  · simp only [allOrders, processRowCore] at ho ⊢
    rw [if_neg hc] at ho
    cases hfi : firstIdx (fun c => jsToLower c.name == jsToLower cName) db.customers with
    | some i =>
      rw [resolveCustomer_found cName cNotes db.customers _ i hfi] at ho
      have hi : i < db.customers.length := firstIdx_lt_length _ _ _ hfi
      dsimp only at ho
      by_cases hs : sName = ""
      · rw [if_pos hs] at ho
        rcases mem_flatMap_place custOrders db.customers i _ o ho with h' | h'
        · exact Or.inl h'
        · rw [custOrders_backfillNotes] at h'
          exact Or.inl (mem_of_custOrders db.customers i hi o h')
      · rw [if_neg hs] at ho
        cases hfj : firstIdx (fun s => jsToLower s.name == jsToLower sName)
            (backfillNotes cNotes (db.customers.getD i dummyCustomer)).sites with
        | some j =>
          rw [resolveSite_found sName sGI _ _ j hfj] at ho
          have hj : j < (backfillNotes cNotes (db.customers.getD i dummyCustomer)).sites.length :=
            firstIdx_lt_length _ _ _ hfj
          rw [backfillNotes_sites] at hj
          dsimp only at ho
          rcases mem_flatMap_place custOrders db.customers i _ o ho with h' | h'
          · exact Or.inl h'
          · unfold custOrders at h'
            dsimp only at h'
            rw [backfillNotes_sites] at h'
            rcases mem_flatMap_place (fun (s : SiteRec) => s.orders) _ j _ o h' with h'' | h''
            · exact Or.inl (mem_of_custOrders db.customers i hi o h'')
            · rcases mergeOrder_orders_cases now jsParse oPart oNum oStatus oDate oNotes
                  _ _ _ with hmo | ⟨pt, hpt, hmo⟩
              · rw [hmo, backfillGI_orders] at h''
                exact Or.inl (mem_of_custOrders db.customers i hi o
                  (mem_custOrders_of_site _ j hj o h''))
              · rw [hmo] at h''
                rcases List.mem_append.mp h'' with h3 | h3
                · rw [backfillGI_orders] at h3
                  exact Or.inl (mem_of_custOrders db.customers i hi o
                    (mem_custOrders_of_site _ j hj o h3))
                · right
                  rw [List.mem_singleton.mp h3]
                  intro pt' p hp
                  rw [part_of_created _ _ _ _ _ hp]
        | none =>
          rw [resolveSite_new sName sGI _ _ hfj] at ho
          dsimp only at ho
          rcases mem_flatMap_place custOrders db.customers i _ o ho with h' | h'
          · exact Or.inl h'
          · unfold custOrders at h'
            dsimp only at h'
            rw [backfillNotes_sites] at h'
            rcases mem_flatMap_place (fun (s : SiteRec) => s.orders) _ _ _ o h' with h'' | h''
            · exact Or.inl (mem_of_custOrders db.customers i hi o h'')
            · rcases mergeOrder_orders_cases now jsParse oPart oNum oStatus oDate oNotes
                  _ _ _ with hmo | ⟨pt, hpt, hmo⟩
              · rw [hmo] at h''
                simp at h''
              · rw [hmo] at h''
                rcases List.mem_append.mp h'' with h3 | h3
                · simp at h3
                · right
                  rw [List.mem_singleton.mp h3]
                  intro pt' p hp
                  rw [part_of_created _ _ _ _ _ hp]
    | none =>
      rw [resolveCustomer_new cName cNotes db.customers _ hfi] at ho
      dsimp only at ho
      by_cases hs : sName = ""
      · rw [if_pos hs] at ho
        rcases mem_flatMap_place custOrders db.customers _ _ o ho with h' | h'
        · exact Or.inl h'
        · simp [custOrders] at h'
      · rw [if_neg hs] at ho
        rw [resolveSite_new sName sGI _ _ (by simp [firstIdx])] at ho
        dsimp only at ho
        rcases mem_flatMap_place custOrders db.customers _ _ o ho with h' | h'
        · exact Or.inl h'
        · unfold custOrders at h'
          dsimp only at h'
          rcases mem_flatMap_place (fun (s : SiteRec) => s.orders) _ _ _ o h' with h'' | h''
          · simp at h''
          · rcases mergeOrder_orders_cases now jsParse oPart oNum oStatus oDate oNotes
                _ _ _ with hmo | ⟨pt, hpt, hmo⟩
            · rw [hmo] at h''
              simp at h''
            · rw [hmo] at h''
              rcases List.mem_append.mp h'' with h3 | h3
              · simp at h3
              · right
                rw [List.mem_singleton.mp h3]
                intro pt' p hp
                rw [part_of_created _ _ _ _ _ hp]

/-! ### Idempotence machinery: what a processed row leaves established -/

/-- After a row has been merged once, the entities it refers to exist in
the state: a matching user, the matching customer (with non-empty notes if
the row carries notes), and — when the row names a site — the matching
site (with non-empty general info if carried) holding an order with the
row's part type and number whenever the row could create one. -/
def rowEstablished (cName cNotes sName sGI oPart oNum assigned : String) (db : DB) :
    Prop :=
  cName = "" ∨
  ((assigned ≠ "" → ∃ u ∈ db.users, jsToLower u.name = jsToLower assigned) ∧
    ∃ i, firstIdx (fun c => jsToLower c.name == jsToLower cName) db.customers = some i ∧
      (cNotes ≠ "" → (db.customers.getD i dummyCustomer).notes ≠ "") ∧
      (sName ≠ "" →
        ∃ j, firstIdx (fun s => jsToLower s.name == jsToLower sName)
            (db.customers.getD i dummyCustomer).sites = some j ∧
          (sGI ≠ "" →
            ((db.customers.getD i dummyCustomer).sites.getD j dummySite).generalInfo ≠ "") ∧
          (∀ pt, oPart ≠ "" → oNum ≠ "" → assigned ≠ "" → partTypeOf oPart = some pt →
            ((db.customers.getD i dummyCustomer).sites.getD j dummySite).orders.any
              (orderMatches pt oNum) = true)))

theorem firstIdx_stable {α : Type} (p : α → Bool) (d : α) (l l' : List α)
    (hlen : l.length ≤ l'.length)
    (hpres : ∀ k, k < l.length → p (l'.getD k d) = p (l.getD k d))
    (i : Nat) (h : firstIdx p l = some i) : firstIdx p l' = some i := by
  have hi := firstIdx_lt_length p l i h
  apply firstIdx_intro p d l' i (Nat.lt_of_lt_of_le hi hlen)
  · rw [hpres i hi]
    exact firstIdx_getD p d l i h
  · intro j hj
    rw [hpres j (hj.trans hi)]
    exact firstIdx_min p d l i h j hj

theorem any_append_of_any {α : Type} (q : α → Bool) (l t : List α)
    (h : l.any q = true) : (l ++ t).any q = true := by
  simp only [List.any_append, h, Bool.true_or]

/-- Everything a row leaves established persists under further evolution
of the state. -/
theorem rowEstablished_mono (cName cNotes sName sGI oPart oNum assigned : String)
    (db db' : DB) (hest : rowEstablished cName cNotes sName sGI oPart oNum assigned db)
    (hle : dbLe db db') :
    rowEstablished cName cNotes sName sGI oPart oNum assigned db' := by
  rcases hest with hempty | ⟨huser, i, hfi, hnotes, hsite⟩
  · exact Or.inl hempty
  right
  obtain ⟨⟨tu, htu⟩, hlen, hcust⟩ := hle
  have hi : i < db.customers.length :=
    firstIdx_lt_length _ _ _ hfi
  have hci := hcust i hi
  obtain ⟨hid, hname, hknotes, hslen, hsites⟩ := hci
  refine ⟨?_, i, ?_, ?_, ?_⟩
  · intro ha
    obtain ⟨u, hu, hn⟩ := huser ha
    exact ⟨u, by rw [htu]; exact List.mem_append_left _ hu, hn⟩
  · refine firstIdx_stable _ dummyCustomer db.customers db'.customers hlen ?_ i hfi
    intro k hk
    rw [(hcust k hk).2.1]
  · intro hn
    rw [hknotes (hnotes hn)]
    exact hnotes hn
  · intro hsn
    obtain ⟨j, hfj, hgi, hord⟩ := hsite hsn
    have hj : j < (db.customers.getD i dummyCustomer).sites.length :=
      firstIdx_lt_length _ _ _ hfj
    have hsj := hsites j hj
    obtain ⟨hsid, hsname, hsgi, ts, hts⟩ := hsj
    refine ⟨j, ?_, ?_, ?_⟩
    · refine firstIdx_stable _ dummySite _ _ hslen ?_ j hfj
      intro k hk
      rw [(hsites k hk).2.1]
    · intro hg
      rw [hsgi (hgi hg)]
      exact hgi hg
    · intro pt h1 h2 h3 hpt
      rw [hts]
      exact any_append_of_any _ _ _ (hord pt h1 h2 h3 hpt)

theorem place_len_append {α : Type} (l : List α) (x : α) : place l l.length x = l ++ [x] := by
  unfold place
  rw [if_neg (Nat.lt_irrefl _)]

theorem mergeOrder_name (now : JSDate) (jsParse : String → Option JSDate)
    (oPart oNum oStatus oDate oNotes : String) (user? : Option UserRec)
    (site : SiteRec) (ctr : Nat) :
    (mergeOrder now jsParse oPart oNum oStatus oDate oNotes user? site ctr).1.name
      = site.name := by
  obtain ⟨t, ht⟩ := mergeOrder_spec now jsParse oPart oNum oStatus oDate oNotes user? site ctr
  rw [ht]

theorem mergeOrder_generalInfo (now : JSDate) (jsParse : String → Option JSDate)
    (oPart oNum oStatus oDate oNotes : String) (user? : Option UserRec)
    (site : SiteRec) (ctr : Nat) :
    (mergeOrder now jsParse oPart oNum oStatus oDate oNotes user? site ctr).1.generalInfo
      = site.generalInfo := by
  obtain ⟨t, ht⟩ := mergeOrder_spec now jsParse oPart oNum oStatus oDate oNotes user? site ctr
  rw [ht]

theorem mergeOrder_any (now : JSDate) (jsParse : String → Option JSDate)
    (oPart oNum oStatus oDate oNotes : String) (user? : Option UserRec)
    (site : SiteRec) (ctr : Nat) (pt : PartType)
    (h1 : ¬(oPart = "" ∨ oNum = "" ∨ user? = none))
    (hpt : partTypeOf oPart = some pt) :
    (mergeOrder now jsParse oPart oNum oStatus oDate oNotes user? site ctr).1.orders.any
      (orderMatches pt oNum) = true := by
  cases hd : site.orders.any (orderMatches pt oNum) with
  | true =>
    rw [mergeOrder_skip_dup now jsParse oPart oNum oStatus oDate oNotes user? site ctr pt
      hpt hd]
    exact hd
  | false =>
    rw [mergeOrder_creates now jsParse oPart oNum oStatus oDate oNotes user? site ctr pt
      h1 hpt hd]
    dsimp only
    rw [List.any_append]
    cases pt <;> simp [orderMatches, OrderRec.part]

/-- A processed row leaves its own entities established. -/
theorem processRowCore_establishes (now : JSDate) (jsParse : String → Option JSDate)
    (cName cNotes sName sGI oPart oNum oStatus oDate oNotes assigned uRole : String)
    (db : DB) :
    rowEstablished cName cNotes sName sGI oPart oNum assigned
      (processRowCore now jsParse cName cNotes sName sGI oPart oNum oStatus oDate oNotes
        assigned uRole db) := by
  by_cases hc : cName = ""
  · exact Or.inl hc
  right
  simp only [processRowCore]
  rw [if_neg hc]
  have huser : assigned ≠ "" →
      ∃ u ∈ (resolveUser assigned uRole db.users db.counter).1,
        jsToLower u.name = jsToLower assigned :=
    fun ha => resolveUser_match assigned uRole db.users db.counter ha
  have husernone : ∀ pt, oPart ≠ "" → oNum ≠ "" → assigned ≠ "" → partTypeOf oPart = some pt →
      ¬(oPart = "" ∨ oNum = "" ∨ (resolveUser assigned uRole db.users db.counter).2.2 = none) := by
    intro pt h1 h2 h3 _ hor
    rcases hor with h | h | h
    · exact h1 h
    · exact h2 h
    · exact resolveUser_user_some assigned uRole db.users db.counter h3 h
  cases hfi : firstIdx (fun c => jsToLower c.name == jsToLower cName) db.customers with
  | some i =>
    rw [resolveCustomer_found cName cNotes db.customers _ i hfi]
    dsimp only
    have hi : i < db.customers.length := firstIdx_lt_length _ _ _ hfi
    have hpc := firstIdx_getD (fun c => jsToLower c.name == jsToLower cName) dummyCustomer
      db.customers i hfi
    by_cases hs : sName = ""
    · rw [if_pos hs]
      refine ⟨huser, i, ?_, ?_, fun hsn => absurd hs hsn⟩
      · apply firstIdx_intro _ dummyCustomer _ i
          (Nat.lt_of_lt_of_le hi (length_le_place _ _ _))
        · rw [place_getD_lt _ _ _ _ hi]
          show (jsToLower (backfillNotes cNotes _).name == jsToLower cName) = true
          rw [backfillNotes_name]
          exact hpc
        · intro k hk
          rw [place_getD_ne _ _ _ _ _ (by omega) (hk.trans hi)]
          exact firstIdx_min _ dummyCustomer db.customers i hfi k hk
      · intro hn
        rw [place_getD_lt _ _ _ _ hi]
        exact backfillNotes_nonempty cNotes _ hn
    · rw [if_neg hs]
      cases hfj : firstIdx (fun s => jsToLower s.name == jsToLower sName)
          (backfillNotes cNotes (db.customers.getD i dummyCustomer)).sites with
      | some j =>
        rw [resolveSite_found sName sGI _ _ j hfj]
        dsimp only
        have hj : j < (backfillNotes cNotes (db.customers.getD i dummyCustomer)).sites.length :=
          firstIdx_lt_length _ _ _ hfj
        refine ⟨huser, i, ?_, ?_, ?_⟩
        · apply firstIdx_intro _ dummyCustomer _ i
            (Nat.lt_of_lt_of_le hi (length_le_place _ _ _))
          · rw [place_getD_lt _ _ _ _ hi]
            show (jsToLower (backfillNotes cNotes _).name == jsToLower cName) = true
            rw [backfillNotes_name]
            exact hpc
          · intro k hk
            rw [place_getD_ne _ _ _ _ _ (by omega) (hk.trans hi)]
            exact firstIdx_min _ dummyCustomer db.customers i hfi k hk
        · intro hn
          rw [place_getD_lt _ _ _ _ hi]
          exact backfillNotes_nonempty cNotes _ hn
        · intro hsn
          refine ⟨j, ?_, ?_, ?_⟩
          · rw [place_getD_lt _ _ _ _ hi]
            dsimp only
            apply firstIdx_intro _ dummySite _ j
              (Nat.lt_of_lt_of_le hj (length_le_place _ _ _))
            · rw [place_getD_lt _ _ _ _ hj]
              show (jsToLower (mergeOrder _ _ _ _ _ _ _ _ _ _).1.name == jsToLower sName) = true
              rw [mergeOrder_name, backfillGI_name]
              exact firstIdx_getD _ dummySite _ j hfj
            · intro k hk
              rw [place_getD_ne _ _ _ _ _ (by omega) (hk.trans hj)]
              exact firstIdx_min _ dummySite _ j hfj k hk
          · intro hg
            rw [place_getD_lt _ _ _ _ hi]
            dsimp only
            rw [place_getD_lt _ _ _ _ hj]
            rw [mergeOrder_generalInfo]
            exact backfillGI_nonempty sGI _ hg
          · intro pt h1 h2 h3 hpt
            rw [place_getD_lt _ _ _ _ hi]
            dsimp only
            rw [place_getD_lt _ _ _ _ hj]
            exact mergeOrder_any now jsParse oPart oNum oStatus oDate oNotes _ _ _ pt
              (husernone pt h1 h2 h3 hpt) hpt
      | none =>
        rw [resolveSite_new sName sGI _ _ hfj]
        dsimp only
        refine ⟨huser, i, ?_, ?_, ?_⟩
        · apply firstIdx_intro _ dummyCustomer _ i
            (Nat.lt_of_lt_of_le hi (length_le_place _ _ _))
          · rw [place_getD_lt _ _ _ _ hi]
            show (jsToLower (backfillNotes cNotes _).name == jsToLower cName) = true
            rw [backfillNotes_name]
            exact hpc
          · intro k hk
            rw [place_getD_ne _ _ _ _ _ (by omega) (hk.trans hi)]
            exact firstIdx_min _ dummyCustomer db.customers i hfi k hk
        · intro hn
          rw [place_getD_lt _ _ _ _ hi]
          exact backfillNotes_nonempty cNotes _ hn
        · intro hsn
          refine ⟨(backfillNotes cNotes (db.customers.getD i dummyCustomer)).sites.length,
            ?_, ?_, ?_⟩
          · rw [place_getD_lt _ _ _ _ hi]
            dsimp only
            rw [place_len_append]
            apply firstIdx_append_none _ _ ?_ _ hfj
            show (jsToLower (mergeOrder _ _ _ _ _ _ _ _ _ _).1.name == jsToLower sName) = true
            rw [mergeOrder_name]
            simp
          · intro hg
            rw [place_getD_lt _ _ _ _ hi]
            dsimp only
            rw [place_getD_len]
            rw [mergeOrder_generalInfo]
            exact hg
          · intro pt h1 h2 h3 hpt
            rw [place_getD_lt _ _ _ _ hi]
            dsimp only
            rw [place_getD_len]
            exact mergeOrder_any now jsParse oPart oNum oStatus oDate oNotes _ _ _ pt
              (husernone pt h1 h2 h3 hpt) hpt
  | none =>
    rw [resolveCustomer_new cName cNotes db.customers _ hfi]
    dsimp only
    by_cases hs : sName = ""
    · rw [if_pos hs]
      refine ⟨huser, db.customers.length, ?_, ?_, fun hsn => absurd hs hsn⟩
      · rw [place_len_append]
        apply firstIdx_append_none _ _ (by simp) _ hfi
      · intro hn
        rw [place_getD_len]
        exact hn
    · rw [if_neg hs]
      rw [resolveSite_new sName sGI _ _ (by simp [firstIdx])]
      dsimp only
      refine ⟨huser, db.customers.length, ?_, ?_, ?_⟩
      · rw [place_len_append]
        apply firstIdx_append_none _ _ (by simp) _ hfi
      · intro hn
        rw [place_getD_len]
        exact hn
      · intro hsn
        refine ⟨0, ?_, ?_, ?_⟩
        · rw [place_getD_len]
          dsimp only
          show firstIdx _ (place ([] : List SiteRec) 0 _) = some 0
          rw [show (0 : Nat) = ([] : List SiteRec).length from rfl, place_len_append]
          apply firstIdx_append_none _ _ ?_ [] (by simp [firstIdx])
          show (jsToLower (mergeOrder _ _ _ _ _ _ _ _ _ _).1.name == jsToLower sName) = true
          rw [mergeOrder_name]
          simp
        · intro hg
          rw [place_getD_len]
          dsimp only
          show (place ([] : List SiteRec) 0 _ |>.getD 0 dummySite).generalInfo ≠ ""
          rw [show (0 : Nat) = ([] : List SiteRec).length from rfl, place_len_append]
          show (mergeOrder _ _ _ _ _ _ _ _ _ _).1.generalInfo ≠ ""
          rw [mergeOrder_generalInfo]
          exact hg
        · intro pt h1 h2 h3 hpt
          rw [place_getD_len]
          dsimp only
          show ((place ([] : List SiteRec) 0 _ |>.getD 0 dummySite).orders.any
            (orderMatches pt oNum)) = true
          rw [show (0 : Nat) = ([] : List SiteRec).length from rfl, place_len_append]
          show ((mergeOrder _ _ _ _ _ _ _ _ _ _).1.orders.any (orderMatches pt oNum)) = true
          exact mergeOrder_any now jsParse oPart oNum oStatus oDate oNotes _ _ _ pt
            (husernone pt h1 h2 h3 hpt) hpt

theorem backfillNotes_noop (n : String) (c : CustomerRec) (h : n ≠ "" → c.notes ≠ "") :
    backfillNotes n c = c := by
  unfold backfillNotes
  rw [if_neg]
  intro hcond
  exact h hcond.1 hcond.2

theorem backfillGI_noop (g : String) (s : SiteRec) (h : g ≠ "" → s.generalInfo ≠ "") :
    backfillGeneralInfo g s = s := by
  unfold backfillGeneralInfo
  rw [if_neg]
  intro hcond
  exact h hcond.1 hcond.2

/-- Re-processing a row whose entities are already established changes
nothing. -/
theorem processRowCore_fixpoint (now : JSDate) (jsParse : String → Option JSDate)
    (cName cNotes sName sGI oPart oNum oStatus oDate oNotes assigned uRole : String)
    (db : DB)
    (hest : rowEstablished cName cNotes sName sGI oPart oNum assigned db) :
    processRowCore now jsParse cName cNotes sName sGI oPart oNum oStatus oDate oNotes
      assigned uRole db = db := by
  by_cases hc : cName = ""
  · subst hc
    exact processRowCore_of_empty now jsParse cNotes sName sGI oPart oNum oStatus oDate
      oNotes assigned uRole db
  rcases hest with hempty | ⟨huser, i, hfi, hnotes, hsite⟩
  · exact absurd hempty hc
  simp only [processRowCore]
  rw [if_neg hc]
  have hi : i < db.customers.length := firstIdx_lt_length _ _ _ hfi
  have hu12 : (resolveUser assigned uRole db.users db.counter).1 = db.users
      ∧ (resolveUser assigned uRole db.users db.counter).2.1 = db.counter := by
    by_cases ha : assigned = ""
    · rw [ha]
      simp [resolveUser]
    · exact resolveUser_of_found assigned uRole db.users db.counter ha (huser ha)
  rw [hu12.1, hu12.2]
  rw [resolveCustomer_found cName cNotes db.customers db.counter i hfi]
  dsimp only
  rw [backfillNotes_noop cNotes _ hnotes]
  by_cases hs : sName = ""
  · rw [if_pos hs]
    rw [place_self db.customers i dummyCustomer hi]
  · rw [if_neg hs]
    obtain ⟨j, hfj, hgi, hord⟩ := hsite hs
    have hj : j < (db.customers.getD i dummyCustomer).sites.length :=
      firstIdx_lt_length _ _ _ hfj
    rw [resolveSite_found sName sGI _ _ j hfj]
    dsimp only
    rw [backfillGI_noop sGI _ hgi]
    have hmo : mergeOrder now jsParse oPart oNum oStatus oDate oNotes
        (resolveUser assigned uRole db.users db.counter).2.2
        ((db.customers.getD i dummyCustomer).sites.getD j dummySite) db.counter
        = ((db.customers.getD i dummyCustomer).sites.getD j dummySite, db.counter) := by
      by_cases hmiss : oPart = "" ∨ oNum = ""
          ∨ (resolveUser assigned uRole db.users db.counter).2.2 = none
      · exact mergeOrder_skip_missing now jsParse oPart oNum oStatus oDate oNotes _ _ _ hmiss
      · push_neg at hmiss
        have ha : assigned ≠ "" := by
          intro ha
          apply hmiss.2.2
          rw [ha]
          simp [resolveUser]
        cases hpt : partTypeOf oPart with
        | none => exact mergeOrder_skip_part now jsParse oPart oNum oStatus oDate oNotes _ _ _ hpt
        | some pt =>
          exact mergeOrder_skip_dup now jsParse oPart oNum oStatus oDate oNotes _ _ _ pt hpt
            (hord pt hmiss.1 hmiss.2.1 ha hpt)
    rw [hmo]
    dsimp only
    rw [place_self _ j dummySite hj]
    have hx : ({ db.customers.getD i dummyCustomer with
        sites := (db.customers.getD i dummyCustomer).sites })
        = db.customers.getD i dummyCustomer := rfl
    rw [hx]
    rw [place_self db.customers i dummyCustomer hi]

/-- `rowEstablished` for a parsed row object. -/
def rowEstablishedR (row : List (String × String)) (db : DB) : Prop :=
  rowEstablished (rowGet row "CustomerName") (rowGet row "CustomerNotes")
    (rowGet row "SiteName") (rowGet row "SiteGeneralInfo")
    (rowGet row "OrderPart") (rowGet row "OrderNumber")
    (rowGet row "OrderAssignedUser") db

theorem processRow_establishes (now : JSDate) (jsParse : String → Option JSDate)
    (row : List (String × String)) (db : DB) :
    rowEstablishedR row (processRow now jsParse row db) := by
  rw [processRow]
  exact processRowCore_establishes now jsParse _ _ _ _ _ _ _ _ _ _ _ db

theorem processRow_fixpoint (now : JSDate) (jsParse : String → Option JSDate)
    (row : List (String × String)) (db : DB) (h : rowEstablishedR row db) :
    processRow now jsParse row db = db := by
  rw [processRow]
  exact processRowCore_fixpoint now jsParse _ _ _ _ _ _ _ _ _ _ _ db h

theorem foldl_establishes (now : JSDate) (jsParse : String → Option JSDate) :
    ∀ (rows : List (List (String × String))) (db : DB) (r : List (String × String)),
      r ∈ rows →
      rowEstablishedR r (rows.foldl (fun d x => processRow now jsParse x d) db) := by
  intro rows
  induction rows with
  | nil =>
    intro db r hr
    simp at hr
  | cons r0 rest ih =>
    intro db r hr
    rcases List.mem_cons.mp hr with rfl | hr'
    · exact rowEstablished_mono _ _ _ _ _ _ _ _ _
        (processRow_establishes now jsParse r db)
        (foldl_processRow_dbLe now jsParse rest (processRow now jsParse r db))
    · exact ih (processRow now jsParse r0 db) r hr'

theorem foldl_fixpoint (now' : JSDate) (jsParse' : String → Option JSDate) :
    ∀ (rows : List (List (String × String))) (db : DB),
      (∀ r ∈ rows, rowEstablishedR r db) →
      rows.foldl (fun d x => processRow now' jsParse' x d) db = db := by
  intro rows
  induction rows with
  | nil => intro db _; rfl
  | cons r0 rest ih =>
    intro db h
    have h0 : processRow now' jsParse' r0 db = db :=
      processRow_fixpoint now' jsParse' r0 db (h r0 (by simp))
    show rest.foldl _ (processRow now' jsParse' r0 db) = db
    rw [h0]
    exact ih db (fun r hr => h r (by simp [hr]))

theorem foldl_fixpoint_log (now' : JSDate) (jsParse' : String → Option JSDate)
    (rows : List (List (String × String))) (db1 : DB) (lg : List SaveEvent)
    (h : ∀ r ∈ rows, rowEstablishedR r db1) :
    rows.foldl (fun d x => processRow now' jsParse' x d) { db1 with log := lg }
      = { db1 with log := lg } := by
  apply foldl_fixpoint
  intro r hr
  exact h r hr

/-! ## Claims -/

/-- C5.  A row whose `CustomerName` field is empty is skipped before any
lookup or mutation: processing it leaves the whole state — customers,
every site and order list, users — unchanged. -/
theorem empty_customer_name_row_is_noop (now : JSDate) (jsParse : String → Option JSDate)
    (row : List (String × String)) (db : DB) (h : rowGet row "CustomerName" = "") :
    processRow now jsParse row db = db := by
  rw [processRow, h, processRowCore_of_empty]

theorem empty_customer_name_row_is_noop_witness :
    rowGet [("CustomerName", "")] "CustomerName" = ""
      ∧ processRow now0 jsParse0 [("CustomerName", "")] db0 = db0 :=
  ⟨rfl, empty_customer_name_row_is_noop now0 jsParse0 [("CustomerName", "")] db0 rfl⟩

/-- C10.  Whenever `importData` throws, the in-memory users, customers
and special options are exactly what they were before the call and no
persistence write has happened: the only throw is emitted after parsing
and before any row is processed. -/
theorem importData_error_leaves_state_unchanged (now : JSDate)
    (jsParse : String → Option JSDate) (csv : String) (db : DB) (e : String)
    (h : (importData now jsParse csv db).2 = Except.error e) :
    (importData now jsParse csv db).1 = db := by
  by_cases hc : (parseCSV csv).isEmpty
  · simp [importData, hc]
  · exfalso
    simp [importData, hc] at h

theorem importData_error_leaves_state_unchanged_witness :
    (importData now0 jsParse0 "" db0).2
        = Except.error "Le fichier CSV est vide ou mal formaté."
      ∧ (importData now0 jsParse0 "" db0).1 = db0 :=
  ⟨rfl, importData_error_leaves_state_unchanged now0 jsParse0 "" db0
    "Le fichier CSV est vide ou mal formaté." rfl⟩

/-- C6.  `importData` throws the fatal "empty/malformed file" error
exactly when the parsed row list is empty, and never throws when it is
non-empty. -/
theorem importData_throws_iff_no_rows (now : JSDate) (jsParse : String → Option JSDate)
    (csv : String) (db : DB) :
    ((importData now jsParse csv db).2
          = Except.error "Le fichier CSV est vide ou mal formaté."
        ↔ parseCSV csv = [])
      ∧ (parseCSV csv ≠ [] →
          ∃ res, (importData now jsParse csv db).2 = Except.ok res) := by
  by_cases hc : (parseCSV csv).isEmpty
  · have h' : parseCSV csv = [] := by simpa using hc
    simp [importData, hc, h']
  · have h' : parseCSV csv ≠ [] := by simpa using hc
    refine ⟨by simp [importData, hc, h'], fun _ => ?_⟩
    simp only [importData]
    rw [if_neg hc]
    exact ⟨_, rfl⟩

theorem importData_throws_iff_no_rows_witness :
    (importData now0 jsParse0 "" db0).2
        = Except.error "Le fichier CSV est vide ou mal formaté."
      ∧ ∃ res, (importData now0 jsParse0 "CustomerName\nAcme" db0).2 = Except.ok res :=
  ⟨(importData_throws_iff_no_rows now0 jsParse0 "" db0).1.mpr rfl,
   (importData_throws_iff_no_rows now0 jsParse0 "CustomerName\nAcme" db0).2 (by decide)⟩

/-- C4.  `"23/10/2025, 14:30:00"` parses to the local-time date
2025-10-23T14:30:00; `"31/02/2025"` matches the strict pattern but the
reconstructed date normalizes to a different calendar day, so parsing
fails, and `importData` then falls back to the current timestamp for the
created order part. -/
theorem french_date_parsing_examples :
    (∀ jsParse : String → Option JSDate,
        parseFrenchDateString jsParse "23/10/2025, 14:30:00"
          = some ⟨2025, 10, 23, 14, 30, 0⟩)
      ∧ (∀ jsParse : String → Option JSDate,
          parseFrenchDateString jsParse "31/02/2025" = none)
      ∧ (∀ (now : JSDate) (jsParse : String → Option JSDate),
          (importData now jsParse
              "CustomerName,SiteName,OrderPart,OrderNumber,OrderCreationDate,OrderAssignedUser\nAcme,SiteA,Portes,D-001,31/02/2025,bob"
              db0).1.customers
            = [⟨1, "Acme", [⟨2, "SiteA", "", [],
                [⟨3, none, some ⟨"D-001", false, now, 0, "bob", ""⟩⟩]⟩], ""⟩]) :=
  ⟨fun _ => rfl, fun _ => rfl, fun _ _ => rfl⟩

/-- C7.  A processed row whose `OrderAssignedUser` has no case-insensitive
name match appends exactly one new user: its email is the lower-cased name
with whitespace replaced by dots at `example.com`, its role is the
PascalCase-normalized `UserRole` when that is one of the three valid
roles, and `Viewer` when `UserRole` is blank or invalid. -/
theorem import_synthesizes_user (now : JSDate) (jsParse : String → Option JSDate)
    (row : List (String × String)) (db : DB)
    (hc : rowGet row "CustomerName" ≠ "")
    (ha : rowGet row "OrderAssignedUser" ≠ "")
    (hfind : db.users.find?
        (fun u => jsToLower u.name == jsToLower (rowGet row "OrderAssignedUser")) = none) :
    (processRow now jsParse row db).users
        = db.users ++ [⟨freshId db.counter, rowGet row "OrderAssignedUser",
            importedEmail (rowGet row "OrderAssignedUser"),
            importedRole (rowGet row "UserRole"), some "password"⟩]
      ∧ (∀ s, jsTrim s = "" → importedRole s = Role.Viewer)
      ∧ (∀ s, pascalCase (jsTrim s) = "Admin" → importedRole s = Role.Admin)
      ∧ (∀ s, pascalCase (jsTrim s) = "Editor" → importedRole s = Role.Editor)
      ∧ (∀ s, pascalCase (jsTrim s) = "Viewer" → importedRole s = Role.Viewer)
      ∧ (∀ s, pascalCase (jsTrim s) ≠ "Admin" → pascalCase (jsTrim s) ≠ "Editor" →
          pascalCase (jsTrim s) ≠ "Viewer" → importedRole s = Role.Viewer) := by
  refine ⟨?_, ?_, ?_, ?_, ?_, ?_⟩
  · rw [processRow_users_eq now jsParse row db hc]
    unfold resolveUser
    rw [if_neg ha, hfind]
    rfl
  · intro s h
    simp [importedRole, h]
  · intro s h
    have he : ¬ jsTrim s = "" := by
      intro he
      rw [he] at h
      exact absurd h (by decide)
    simp [importedRole, he, h]
  · intro s h
    have he : ¬ jsTrim s = "" := by
      intro he
      rw [he] at h
      exact absurd h (by decide)
    simp [importedRole, he, h]
  · intro s h
    have he : ¬ jsTrim s = "" := by
      intro he
      rw [he] at h
      exact absurd h (by decide)
    simp [importedRole, he, h]
  · intro s h1 h2 h3
    by_cases he : jsTrim s = ""
    · simp [importedRole, he]
    · simp [importedRole, he, h1, h2, h3]

theorem import_synthesizes_user_witness :
    (processRow now0 jsParse0
        [("CustomerName", "Acme"), ("OrderAssignedUser", "Bob Smith"), ("UserRole", "admin")]
        db0).users
      = [⟨0, "Bob Smith", "bob.smith@example.com", Role.Admin, some "password"⟩] := by
  rw [(import_synthesizes_user now0 jsParse0
    [("CustomerName", "Acme"), ("OrderAssignedUser", "Bob Smith"), ("UserRole", "admin")]
    db0 (by decide) (by decide) (by decide)).1]
  decide

/-- C2, counterexample.  `importData`'s user synthesis checks only the
name, so a synthesized email can collide with an existing user's email:
with an existing user `alice` whose email is `bob@example.com`, importing
a row assigned to the new user `Bob` produces two users sharing the email
`bob@example.com`, violating the case-insensitive uniqueness invariant. -/
theorem import_breaks_email_uniqueness :
    usersUniqueCI
        (DB.mk [⟨0, "alice", "bob@example.com", Role.Viewer, some "x"⟩] [] [] 1 []).users
      ∧ ¬ usersUniqueCI ((importData now0 jsParse0
          "CustomerName,OrderAssignedUser\nAcme,Bob"
          (DB.mk [⟨0, "alice", "bob@example.com", Role.Viewer, some "x"⟩] [] [] 1 [])).1.users) := by
  constructor
  · decide
  · decide

/-- C2, amended.  `addUser` and `signup` preserve case-insensitive
uniqueness of both names and emails; `importData` preserves
case-insensitive uniqueness of names, but a synthesized user's email may
duplicate an existing email (it is derived from the name without any
email-duplicate check). -/
theorem user_add_operations_uniqueness (db : DB) (h : usersUniqueCI db.users) :
    (∀ name email pw role, usersUniqueCI (addUser name email pw role db).1.users)
      ∧ (∀ name email pw, usersUniqueCI (signup name email pw db).1.users)
      ∧ (∀ now jsParse csv, namesUniqueCI (importData now jsParse csv db).1.users) :=
  ⟨fun name email pw role => addUser_users_unique name email pw role db h,
   fun name email pw => signup_users_unique name email pw db h,
   fun now jsParse csv => importData_names_unique now jsParse csv db h.1⟩

theorem user_add_operations_uniqueness_witness :
    usersUniqueCI db0.users
      ∧ usersUniqueCI (addUser "a" "a@example.com" "pw" Role.Viewer db0).1.users
      ∧ namesUniqueCI
          (importData now0 jsParse0 "CustomerName,OrderAssignedUser\nAcme,Bob" db0).1.users :=
  ⟨by decide,
   (user_add_operations_uniqueness db0 (by decide)).1 "a" "a@example.com" "pw" Role.Viewer,
   (user_add_operations_uniqueness db0 (by decide)).2.2 now0 jsParse0
     "CustomerName,OrderAssignedUser\nAcme,Bob"⟩

/-- C3, counterexample.  The parser does yield the literal value
`a,b"c` for the quoted field `"a,b""c"`, but that value has five
characters, not seven as the claim states. -/
theorem quoted_field_value_not_seven_chars :
    rowGet ((parseCSV "A,B,C\nx,\"a,b\"\"c\",z").headD []) "B" = "a,b\"c"
      ∧ (rowGet ((parseCSV "A,B,C\nx,\"a,b\"\"c\",z").headD []) "B").length = 5
      ∧ ¬ (rowGet ((parseCSV "A,B,C\nx,\"a,b\"\"c\",z").headD []) "B").length = 7 :=
  ⟨by decide, by decide, by decide⟩

/-- C3, amended.  For any data row made of quote-free comma-free fields
around the quoted field `"a,b""c"` (embedded comma, doubled double quote),
the field splitter parses that field to exactly the five-character literal
`a,b"c`, leaving the surrounding fields intact. -/
theorem parse_quoted_field_with_escaped_quotes (s : String) (pre post : List String)
    (hpre : ∀ f ∈ pre, simpleField f) (hpost : ∀ f ∈ post, simpleField f)
    (hs : s.data = pre.flatMap (fun f => f.data ++ [','])
        ++ "\"a,b\"\"c\"".data ++ post.flatMap (fun f => ',' :: f.data)) :
    splitCSVLine s = pre ++ ["a,b\"c"] ++ post ∧ ("a,b\"c").length = 5 := by
  constructor
  · unfold splitCSVLine
    rw [hs]
    simpa using parseFields_main pre hpre post hpost []
  · rfl

theorem parse_quoted_field_with_escaped_quotes_witness :
    splitCSVLine "x,\"a,b\"\"c\",z" = ["x"] ++ ["a,b\"c"] ++ ["z"]
      ∧ ("a,b\"c").length = 5 :=
  parse_quoted_field_with_escaped_quotes "x,\"a,b\"\"c\",z" ["x"] ["z"]
    (by decide) (by decide) (by decide)

theorem importData_dbLe (now : JSDate) (jsParse : String → Option JSDate)
    (csv : String) (db : DB) : dbLe db (importData now jsParse csv db).1 := by
  by_cases hc : (parseCSV csv).isEmpty
  · simp only [importData]
    rw [if_pos hc]
    exact dbLe_refl db
  · simp only [importData]
    rw [if_neg hc]
    exact foldl_processRow_dbLe now jsParse (parseCSV csv) db

/-- C9.  Backfill is non-destructive: a customer's non-empty notes and a
site's non-empty general info survive any import verbatim; and the
backfill steps themselves write the imported value only into an empty
field, never overwriting a non-empty one. -/
theorem backfill_non_destructive (now : JSDate) (jsParse : String → Option JSDate)
    (csv : String) (db : DB) (i j : Nat)
    (hi : i < db.customers.length)
    (hj : j < (db.customers.getD i dummyCustomer).sites.length) :
    ((db.customers.getD i dummyCustomer).notes ≠ "" →
        ((importData now jsParse csv db).1.customers.getD i dummyCustomer).notes
          = (db.customers.getD i dummyCustomer).notes)
      ∧ (((db.customers.getD i dummyCustomer).sites.getD j dummySite).generalInfo ≠ "" →
          (((importData now jsParse csv db).1.customers.getD i dummyCustomer).sites.getD j
              dummySite).generalInfo
            = ((db.customers.getD i dummyCustomer).sites.getD j dummySite).generalInfo)
      ∧ (∀ (n : String) (c : CustomerRec), c.notes = "" → n ≠ "" →
          (backfillNotes n c).notes = n)
      ∧ (∀ (n : String) (c : CustomerRec), c.notes ≠ "" →
          (backfillNotes n c).notes = c.notes)
      ∧ (∀ (g : String) (s : SiteRec), s.generalInfo = "" → g ≠ "" →
          (backfillGeneralInfo g s).generalInfo = g)
      ∧ (∀ (g : String) (s : SiteRec), s.generalInfo ≠ "" →
          (backfillGeneralInfo g s).generalInfo = s.generalInfo) := by
  have hle := importData_dbLe now jsParse csv db
  have hcust := hle.2.2 i hi
  refine ⟨hcust.2.2.1, ?_, ?_, ?_, ?_, ?_⟩
  · exact (hcust.2.2.2.2 j hj).2.2.1
  · intro n c he hn
    unfold backfillNotes
    rw [if_pos ⟨hn, he⟩]
  · exact fun n c h => backfillNotes_kept n c h
  · intro g s he hg
    unfold backfillGeneralInfo
    rw [if_pos ⟨hg, he⟩]
  · exact fun g s h => backfillGI_kept g s h

theorem backfill_non_destructive_witness :
    ((importData now0 jsParse0
        "CustomerName,CustomerNotes,SiteName,SiteGeneralInfo\nAcme,newnotes,SiteA,newinfo"
        (DB.mk [] [⟨5, "Acme", [⟨6, "SiteA", "info", [], []⟩], "keep"⟩] [] 10 [])).1.customers.getD
          0 dummyCustomer).notes = "keep"
      ∧ (((importData now0 jsParse0
          "CustomerName,CustomerNotes,SiteName,SiteGeneralInfo\nAcme,newnotes,SiteA,newinfo"
          (DB.mk [] [⟨5, "Acme", [⟨6, "SiteA", "info", [], []⟩], "keep"⟩] [] 10 [])).1.customers.getD
            0 dummyCustomer).sites.getD 0 dummySite).generalInfo = "info" := by
  have h := backfill_non_destructive now0 jsParse0
    "CustomerName,CustomerNotes,SiteName,SiteGeneralInfo\nAcme,newnotes,SiteA,newinfo"
    (DB.mk [] [⟨5, "Acme", [⟨6, "SiteA", "info", [], []⟩], "keep"⟩] [] 10 []) 0 0
    (by decide) (by decide)
  exact ⟨h.1 (by decide), h.2.1 (by decide)⟩

/-- C8.  A row with `OrderPart = "Huisseries"`, `OrderNumber = "F-001"`,
`OrderStatus = "Envoyée"` produces an order whose part sits in the frames
slot with `isSent = true`; `partTypeOf` rejects exactly the texts other
than case-insensitive `huisseries`/`portes`; a rejected part type adds no
order anywhere; and any order a row adds has `isSent` equal to the exact
comparison of `OrderStatus` with `"Envoyée"`. -/
theorem order_part_mapping_and_sent_flag :
    ((importData now0 jsParse0
        "CustomerName,SiteName,OrderPart,OrderNumber,OrderStatus,OrderAssignedUser\nAcme,SiteA,Huisseries,F-001,Envoyée,bob"
        db0).1.customers
      = [⟨1, "Acme", [⟨2, "SiteA", "", [],
          [⟨3, some ⟨"F-001", true, now0, 0, "bob", ""⟩, none⟩]⟩], ""⟩])
    ∧ (∀ s, partTypeOf s = none ↔ (jsToLower s ≠ "huisseries" ∧ jsToLower s ≠ "portes"))
    ∧ (∀ (now : JSDate) (jsParse : String → Option JSDate) (row : List (String × String))
        (db : DB), partTypeOf (rowGet row "OrderPart") = none →
          allOrders (processRow now jsParse row db) = allOrders db)
    ∧ (∀ (now : JSDate) (jsParse : String → Option JSDate) (row : List (String × String))
        (db : DB), ∀ o ∈ allOrders (processRow now jsParse row db),
          o ∈ allOrders db ∨ ∀ pt p, o.part pt = some p →
            p.isSent = (rowGet row "OrderStatus" == "Envoyée")) := by
  refine ⟨by decide, ?_, ?_, ?_⟩
  · intro s
    unfold partTypeOf
    constructor
    · intro h
      constructor <;> intro he <;> simp [he] at h
    · intro h
      rw [if_neg h.1, if_neg h.2]
  · intro now jsParse row db h
    rw [processRow]
    exact processRowCore_allOrders_skip now jsParse _ _ _ _ _ _ _ _ _ _ _ db h
  · intro now jsParse row db o ho
    rw [processRow] at ho
    exact processRowCore_allOrders_mem now jsParse _ _ _ _ _ _ _ _ _ _ _ db o ho

theorem order_part_mapping_and_sent_flag_witness :
    partTypeOf "Fenetres" = none
      ∧ allOrders (processRow now0 jsParse0
          [("CustomerName", "Acme"), ("SiteName", "S"), ("OrderPart", "Fenetres"),
            ("OrderNumber", "N1"), ("OrderAssignedUser", "bob")] db0)
        = allOrders db0 :=
  ⟨by decide,
   order_part_mapping_and_sent_flag.2.2.1 now0 jsParse0
     [("CustomerName", "Acme"), ("SiteName", "S"), ("OrderPart", "Fenetres"),
       ("OrderNumber", "N1"), ("OrderAssignedUser", "bob")] db0 (by decide)⟩

/-- C1.  `importData` is idempotent with respect to orders (indeed with
respect to the whole customer tree and user list): re-importing the same
CSV text leaves every site's order list — and every customer and user —
exactly as the first import left them, because every row's order already
exists (same site, part type and part number) and is therefore skipped. -/
theorem importData_reimport_adds_no_orders (now now' : JSDate)
    (jsParse jsParse' : String → Option JSDate) (csv : String) (db : DB) :
    (importData now' jsParse' csv (importData now jsParse csv db).1).1.customers
        = (importData now jsParse csv db).1.customers
      ∧ (importData now' jsParse' csv (importData now jsParse csv db).1).1.users
        = (importData now jsParse csv db).1.users := by
  by_cases hc : (parseCSV csv).isEmpty
  · simp [importData, hc]
  · have hrows : ∀ r ∈ parseCSV csv,
        rowEstablishedR r ((parseCSV csv).foldl (fun d x => processRow now jsParse x d) db) :=
      fun r hr => foldl_establishes now jsParse (parseCSV csv) db r hr
    simp only [importData]
    rw [if_neg hc, if_neg hc]
    dsimp only
    rw [foldl_fixpoint_log now' jsParse' (parseCSV csv)
      (List.foldl (fun d row => processRow now jsParse row d) db (parseCSV csv))
      _ (fun r hr => hrows r hr)]
    exact ⟨rfl, rfl⟩

end Batiserv
